import Mathlib

/-!
Verification of the smart-bookmark-app core against its specification.

The development shallowly embeds the two logic-bearing pieces of the
repository:

* `normalizeUrl` (src/app/page.tsx, lines 20-47), together with a model of
  the platform URL parser (the WHATWG `new URL(...)` primitive) restricted
  to `http:`/`https:` URLs with ASCII hosts.  Restrictions of the parser
  model, each noted at the relevant definition: IPv6 bracket hosts and
  non-ASCII (IDNA/punycode) hosts are treated as parse failures, while the
  real parser may accept them; both are flagged as unhandled edge cases in
  the specification.
* The client component `Home` (session store, realtime subscription effect,
  and the bookmark repository handlers), embedded as a state machine with
  explicit collaborator calls, plus the `getSupabaseClient` singleton from
  src/lib/supabase/client.ts.
-/

/-! ### Character helpers -/

/-- ASCII decimal digit. -/
def isDig (c : Char) : Bool := 48 ≤ c.toNat && c.toNat ≤ 57

/-- ASCII hexadecimal digit. -/
def isHexDig (c : Char) : Bool :=
  (48 ≤ c.toNat && c.toNat ≤ 57) || (65 ≤ c.toNat && c.toNat ≤ 70) ||
    (97 ≤ c.toNat && c.toNat ≤ 102)

/-- Numeric value of a hexadecimal digit. -/
def hexVal (c : Char) : Nat :=
  if c.toNat ≤ 57 then c.toNat - 48
  else if c.toNat ≤ 70 then c.toNat - 55
  else c.toNat - 87

/-- The character for a decimal digit value. -/
def digitChar (n : Nat) : Char := Char.ofNat (48 + n)

/-- The character for a hex digit value, uppercase as the WHATWG serializer
produces. -/
def hexDigitChar (n : Nat) : Char :=
  if n < 10 then Char.ofNat (48 + n) else Char.ofNat (55 + n)

theorem digitChar_toNat : ∀ n, n < 10 → (digitChar n).toNat = 48 + n := by
  decide

theorem isDig_digitChar : ∀ n, n < 10 → isDig (digitChar n) = true := by
  decide

/-! ### Decimal printing and parsing

`natToDec` prints the canonical decimal form.  The definition is by explicit
digit extraction (rather than well-founded recursion) so that it reduces in
the kernel; it is correct for `n < 100000`, which covers every use in the
URL model (IPv4 octets are below 256 and ports below 65536). -/

def natToDec (n : Nat) : List Char :=
  if n < 10 then [digitChar n]
  else if n < 100 then [digitChar (n / 10), digitChar (n % 10)]
  else if n < 1000 then [digitChar (n / 100), digitChar (n / 10 % 10), digitChar (n % 10)]
  else if n < 10000 then
    [digitChar (n / 1000), digitChar (n / 100 % 10), digitChar (n / 10 % 10), digitChar (n % 10)]
  else
    [digitChar (n / 10000 % 10), digitChar (n / 1000 % 10), digitChar (n / 100 % 10),
      digitChar (n / 10 % 10), digitChar (n % 10)]

/-- Decimal value of a digit string, folding left as a base-10 accumulator. -/
def decToNat (l : List Char) : Nat := l.foldl (fun a c => a * 10 + (c.toNat - 48)) 0

theorem natToDec_ne_nil (n : Nat) : natToDec n ≠ [] := by
  unfold natToDec
  repeat' split
  all_goals simp

theorem natToDec_all_dig (n : Nat) (h : n < 100000) :
    (natToDec n).all isDig = true := by
  unfold natToDec
  repeat' split
  all_goals simp only [List.all_cons, List.all_nil, Bool.and_true, Bool.and_eq_true]
  all_goals repeat' apply And.intro
  all_goals apply isDig_digitChar
  all_goals omega

theorem decToNat_natToDec (n : Nat) (h : n < 100000) : decToNat (natToDec n) = n := by
  unfold natToDec
  by_cases h1 : n < 10
  · simp only [if_pos h1, decToNat, List.foldl]
    rw [digitChar_toNat n h1]
    omega
  · by_cases h2 : n < 100
    · simp only [if_neg h1, if_pos h2, decToNat, List.foldl]
      rw [digitChar_toNat (n / 10) (by omega), digitChar_toNat (n % 10) (by omega)]
      omega
    · by_cases h3 : n < 1000
      · simp only [if_neg h1, if_neg h2, if_pos h3, decToNat, List.foldl]
        rw [digitChar_toNat (n / 100) (by omega), digitChar_toNat (n / 10 % 10) (by omega),
          digitChar_toNat (n % 10) (by omega)]
        omega
      · by_cases h4 : n < 10000
        · simp only [if_neg h1, if_neg h2, if_neg h3, if_pos h4, decToNat, List.foldl]
          rw [digitChar_toNat (n / 1000) (by omega), digitChar_toNat (n / 100 % 10) (by omega),
            digitChar_toNat (n / 10 % 10) (by omega), digitChar_toNat (n % 10) (by omega)]
          omega
        · simp only [if_neg h1, if_neg h2, if_neg h3, if_neg h4, decToNat, List.foldl]
          rw [digitChar_toNat (n / 10000 % 10) (by omega),
            digitChar_toNat (n / 1000 % 10) (by omega),
            digitChar_toNat (n / 100 % 10) (by omega), digitChar_toNat (n / 10 % 10) (by omega),
            digitChar_toNat (n % 10) (by omega)]
          omega

/-! ### WHATWG percent-encode sets

Each set is given by ASCII code so proofs about them reduce to `omega`.
`isC0OrHigh` is the C0-control percent-encode base set. -/

def isC0OrHigh (c : Char) : Bool := c.toNat ≤ 0x1f || 0x7f ≤ c.toNat

/-- Fragment percent-encode set: C0 controls and non-ASCII, space, quote,
angle brackets and backtick. -/
def inFragmentSet (c : Char) : Bool :=
  isC0OrHigh c || c.toNat = 0x20 || c.toNat = 0x22 || c.toNat = 0x3c || c.toNat = 0x3e ||
    c.toNat = 0x60

/-- Query percent-encode set for special URLs: C0 controls and non-ASCII,
space, quote, hash, angle brackets and apostrophe. -/
def inQuerySet (c : Char) : Bool :=
  isC0OrHigh c || c.toNat = 0x20 || c.toNat = 0x22 || c.toNat = 0x23 || c.toNat = 0x3c ||
    c.toNat = 0x3e || c.toNat = 0x27

/-- Path percent-encode set: the query set plus question mark, backtick and
curly braces. -/
def inPathSet (c : Char) : Bool :=
  inQuerySet c || c.toNat = 0x3f || c.toNat = 0x60 || c.toNat = 0x7b || c.toNat = 0x7d

/-- Userinfo percent-encode set: the path set plus slash, colon, semicolon,
equals, at sign, square brackets, backslash, caret and pipe. -/
def inUserinfoSet (c : Char) : Bool :=
  inPathSet c || c.toNat = 0x2f || c.toNat = 0x3a || c.toNat = 0x3b || c.toNat = 0x3d ||
    c.toNat = 0x40 || c.toNat = 0x5b || c.toNat = 0x5c || c.toNat = 0x5d || c.toNat = 0x5e ||
    c.toNat = 0x7c

/-- Forbidden domain code points: forbidden host code points plus C0
controls, the percent sign and U+007F. -/
def isForbiddenDomain (c : Char) : Bool :=
  c.toNat ≤ 0x1f || c.toNat = 0x20 || c.toNat = 0x23 || c.toNat = 0x25 || c.toNat = 0x2f ||
    c.toNat = 0x3a || c.toNat = 0x3c || c.toNat = 0x3e || c.toNat = 0x3f || c.toNat = 0x40 ||
    c.toNat = 0x5b || c.toNat = 0x5c || c.toNat = 0x5d || c.toNat = 0x5e || c.toNat = 0x7c ||
    c.toNat = 0x7f

theorem frag_sub_userinfo (c : Char) (h : inFragmentSet c = true) : inUserinfoSet c = true := by
  simp only [inFragmentSet, inUserinfoSet, inPathSet, inQuerySet, isC0OrHigh,
    Bool.or_eq_true, decide_eq_true_eq] at *
  omega

theorem query_sub_userinfo (c : Char) (h : inQuerySet c = true) : inUserinfoSet c = true := by
  simp only [inUserinfoSet, inPathSet, inQuerySet, isC0OrHigh, Bool.or_eq_true,
    decide_eq_true_eq] at *
  omega

theorem path_sub_userinfo (c : Char) (h : inPathSet c = true) : inUserinfoSet c = true := by
  simp only [inUserinfoSet, inPathSet, inQuerySet, isC0OrHigh, Bool.or_eq_true,
    decide_eq_true_eq] at *
  omega

/-! ### UTF-8 and percent-encoding -/

/-- UTF-8 byte sequence of a character. -/
def utf8Bytes (c : Char) : List Nat :=
  let n := c.toNat
  if n < 0x80 then [n]
  else if n < 0x800 then [0xc0 + n / 64, 0x80 + n % 64]
  else if n < 0x10000 then [0xe0 + n / 4096, 0x80 + n / 64 % 64, 0x80 + n % 64]
  else [0xf0 + n / 262144, 0x80 + n / 4096 % 64, 0x80 + n / 64 % 64, 0x80 + n % 64]

/-- Percent-encoding of one byte, `%XY` with uppercase hex digits. -/
def encodeByte (b : Nat) : List Char := ['%', hexDigitChar (b / 16 % 16), hexDigitChar (b % 16)]

/-- UTF-8 percent-encode a character if it is in the given set, otherwise
keep it. -/
def encodeChar (inSet : Char → Bool) (c : Char) : List Char :=
  if inSet c then (utf8Bytes c).flatMap encodeByte else [c]

/-- UTF-8 percent-encode every character of a list against the given set. -/
def encodeList (inSet : Char → Bool) (l : List Char) : List Char :=
  l.flatMap (encodeChar inSet)

/-- Fuel-indexed percent-decoding step function; the fuel only serves to
make the recursion structural (one unit per emitted character suffices). -/
def percentDecodeFuel : Nat → List Char → List Char
  | 0, _ => []
  | _, [] => []
  | fuel + 1, c :: rest =>
    if c = '%' then
      match rest with
      | h1 :: h2 :: rest2 =>
        if isHexDig h1 && isHexDig h2 then
          Char.ofNat (hexVal h1 * 16 + hexVal h2) :: percentDecodeFuel fuel rest2
        else c :: percentDecodeFuel fuel rest
      | _ => c :: percentDecodeFuel fuel rest
    else c :: percentDecodeFuel fuel rest

/-- Strict percent-decoding: a `%` followed by two hex digits becomes the
corresponding byte, anything else passes through (used only on hosts). -/
def percentDecode (l : List Char) : List Char := percentDecodeFuel l.length l

theorem not_userinfo_percent : inUserinfoSet '%' = false := by decide

theorem not_userinfo_hexDigitChar : ∀ n, n < 16 → inUserinfoSet (hexDigitChar n) = false := by
  decide

theorem encodeList_nil (inSet : Char → Bool) : encodeList inSet [] = [] := rfl

theorem encodeList_cons (inSet : Char → Bool) (c : Char) (l : List Char) :
    encodeList inSet (c :: l) = encodeChar inSet c ++ encodeList inSet l := rfl

/-- Every character produced by percent-encoding against a set contained in
the userinfo set again lies outside that set: kept characters were outside
it, and `%` plus uppercase hex digits are outside the userinfo set. -/
theorem encodeList_not_inSet (inSet : Char → Bool)
    (hsub : ∀ c, inSet c = true → inUserinfoSet c = true) (l : List Char) :
    ∀ c ∈ encodeList inSet l, inSet c = false := by
  induction l with
  | nil => intro c hc; simp [encodeList] at hc
  | cons a rest ih =>
    intro c hc
    rw [encodeList_cons] at hc
    rcases List.mem_append.mp hc with h | h
    · unfold encodeChar at h
      split at h
      case isTrue =>
        rcases List.mem_flatMap.mp h with ⟨b, _, hb2⟩
        unfold encodeByte at hb2
        simp only [List.mem_cons, List.not_mem_nil, or_false] at hb2
        have notuser : inUserinfoSet c = false := by
          rcases hb2 with rfl | rfl | rfl
          · exact not_userinfo_percent
          · exact not_userinfo_hexDigitChar _ (Nat.mod_lt _ (by omega))
          · exact not_userinfo_hexDigitChar _ (Nat.mod_lt _ (by omega))
        cases hset : inSet c with
        | false => rfl
        | true => rw [hsub c hset] at notuser; exact absurd notuser (by simp)
      case isFalse h2 =>
        simp only [List.mem_singleton] at h
        subst h
        simpa using h2
    · exact ih c h

/-- Percent-encoding is the identity on lists whose characters all lie
outside the set. -/
theorem encodeList_id (inSet : Char → Bool) (l : List Char)
    (h : ∀ c ∈ l, inSet c = false) : encodeList inSet l = l := by
  induction l with
  | nil => rfl
  | cons a rest ih =>
    rw [encodeList_cons, encodeChar, if_neg (by simp [h a (by simp)])]
    simp only [List.singleton_append, List.cons.injEq, true_and]
    exact ih (fun c hc => h c (by simp [hc]))

theorem percentDecodeFuel_id (fuel : Nat) (l : List Char) (hf : l.length ≤ fuel)
    (h : ∀ c ∈ l, c ≠ '%') : percentDecodeFuel fuel l = l := by
  induction fuel generalizing l with
  | zero =>
    cases l with
    | nil => rfl
    | cons a rest => simp at hf
  | succ fuel ih =>
    cases l with
    | nil => rfl
    | cons a rest =>
      have ha : a ≠ '%' := h a (by simp)
      have hrest : percentDecodeFuel fuel rest = rest :=
        ih rest (by simp at hf; omega) (fun c hc => h c (by simp [hc]))
      simp [percentDecodeFuel, ha, hrest]

theorem percentDecode_id (l : List Char) (h : ∀ c ∈ l, c ≠ '%') :
    percentDecode l = l :=
  percentDecodeFuel_id l.length l (Nat.le_refl _) h

theorem percentDecode_ne_nil (l : List Char) (h : l ≠ []) : percentDecode l ≠ [] := by
  cases l with
  | nil => simp at h
  | cons a rest =>
    show percentDecodeFuel (a :: rest).length (a :: rest) ≠ []
    simp only [List.length_cons]
    unfold percentDecodeFuel
    split
    · split
      · split
        all_goals simp
      · simp
    · simp

/-! ### List splitting helpers -/

/-- Longest boolean-predicate-satisfying split: characters while `p` holds,
then the remainder. -/
def spanList (p : Char → Bool) : List Char → List Char × List Char
  | [] => ([], [])
  | c :: rest =>
    if p c then
      let s := spanList p rest
      (c :: s.1, s.2)
    else ([], c :: rest)

theorem spanList_all (p : Char → Bool) (l : List Char) (h : ∀ c ∈ l, p c = true) :
    spanList p l = (l, []) := by
  induction l with
  | nil => rfl
  | cons a rest ih =>
    have hx : p a = true := h a (by simp)
    have ihh := ih (fun c hc => h c (by simp [hc]))
    simp [spanList, hx, ihh]

theorem spanList_append (p : Char → Bool) (a : List Char) (c : Char) (rest : List Char)
    (ha : ∀ x ∈ a, p x = true) (hc : p c = false) :
    spanList p (a ++ c :: rest) = (a, c :: rest) := by
  induction a with
  | nil => simp [spanList, hc]
  | cons x xs ih =>
    have hx : p x = true := ha x (by simp)
    have ihh := ih (fun y hy => ha y (by simp [hy]))
    simp [spanList, hx, ihh]

/-- Split at the first occurrence of the separator; `none` if absent. -/
def splitFirst (sep : Char) : List Char → List Char × Option (List Char)
  | [] => ([], none)
  | c :: rest =>
    if c = sep then ([], some rest)
    else
      let s := splitFirst sep rest
      (c :: s.1, s.2)

theorem splitFirst_not_mem (sep : Char) (l : List Char) (h : sep ∉ l) :
    splitFirst sep l = (l, none) := by
  induction l with
  | nil => rfl
  | cons a rest ih =>
    have hx : a ≠ sep := fun e => h (by simp [e])
    have ihh := ih (fun m => h (by simp [m]))
    simp [splitFirst, hx, ihh]

theorem splitFirst_append (sep : Char) (a b : List Char) (h : sep ∉ a) :
    splitFirst sep (a ++ sep :: b) = (a, some b) := by
  induction a with
  | nil => simp [splitFirst]
  | cons x xs ih =>
    have hx : x ≠ sep := fun e => h (by simp [e])
    have ihh := ih (fun m => h (by simp [m]))
    simp [splitFirst, hx, ihh]

/-- Split at the last occurrence of the separator; `none` if absent. -/
def splitLast (sep : Char) (l : List Char) : Option (List Char × List Char) :=
  match splitFirst sep l.reverse with
  | (_, none) => none
  | (revAfter, some revBefore) => some (revBefore.reverse, revAfter.reverse)

theorem splitLast_not_mem (sep : Char) (l : List Char) (h : sep ∉ l) :
    splitLast sep l = none := by
  unfold splitLast
  rw [splitFirst_not_mem sep l.reverse (by simpa using h)]

theorem splitLast_append (sep : Char) (a b : List Char) (hb : sep ∉ b) :
    splitLast sep (a ++ sep :: b) = some (a, b) := by
  unfold splitLast
  have : (a ++ sep :: b).reverse = b.reverse ++ sep :: a.reverse := by
    simp [List.reverse_append]
  rw [this, splitFirst_append sep b.reverse a.reverse (by simpa using hb)]
  simp

/-- Split on a separator predicate; always returns at least one part, parts
contain no separator. -/
def splitOnSep (sep : Char → Bool) : List Char → List (List Char)
  | [] => [[]]
  | c :: rest =>
    if sep c then [] :: splitOnSep sep rest
    else
      match splitOnSep sep rest with
      | [] => [[c]]
      | a :: as => (c :: a) :: as

theorem splitOnSep_ne_nil (sep : Char → Bool) (l : List Char) : splitOnSep sep l ≠ [] := by
  induction l with
  | nil => simp [splitOnSep]
  | cons a rest ih =>
    unfold splitOnSep
    split
    · simp
    · split
      · simp
      · simp

theorem splitOnSep_no_sep (sep : Char → Bool) (l : List Char)
    (h : ∀ c ∈ l, sep c = false) : splitOnSep sep l = [l] := by
  induction l with
  | nil => rfl
  | cons a rest ih =>
    have hx : sep a = false := h a (by simp)
    have ihh := ih (fun c hc => h c (by simp [hc]))
    simp [splitOnSep, hx, ihh]

theorem splitOnSep_append (sep : Char → Bool) (a : List Char) (c : Char) (rest : List Char)
    (ha : ∀ x ∈ a, sep x = false) (hc : sep c = true) :
    splitOnSep sep (a ++ c :: rest) = a :: splitOnSep sep rest := by
  induction a with
  | nil => simp [splitOnSep, hc]
  | cons x xs ih =>
    have hx : sep x = false := ha x (by simp)
    have ihh := ih (fun y hy => ha y (by simp [hy]))
    simp [splitOnSep, hx, ihh]

/-- Prepending separator-free characters extends the first part. -/
theorem splitOnSep_prepend (sep : Char → Bool) (a l : List Char)
    (ha : ∀ x ∈ a, sep x = false) :
    splitOnSep sep (a ++ l) =
      (a ++ (splitOnSep sep l).headI) :: (splitOnSep sep l).tail := by
  induction a with
  | nil =>
    simp only [List.nil_append]
    cases h : splitOnSep sep l with
    | nil => exact absurd h (splitOnSep_ne_nil sep l)
    | cons p ps => simp
  | cons x xs ih =>
    have hx : sep x = false := ha x (by simp)
    have ihh := ih (fun y hy => ha y (by simp [hy]))
    cases h : splitOnSep sep l with
    | nil => exact absurd h (splitOnSep_ne_nil sep l)
    | cons p ps =>
      rw [h] at ihh
      simp only [List.headI, List.tail] at ihh
      simp [splitOnSep, hx, ihh, h]

/-- Every part of a separator split is separator-free. -/
theorem splitOnSep_parts (sep : Char → Bool) (l : List Char) :
    ∀ part ∈ splitOnSep sep l, ∀ c ∈ part, sep c = false := by
  induction l with
  | nil =>
    intro part hp c hc
    simp only [splitOnSep, List.mem_singleton] at hp
    subst hp
    simp at hc
  | cons a rest ih =>
    intro part hp c hc
    unfold splitOnSep at hp
    split at hp
    · rcases List.mem_cons.mp hp with rfl | hp2
      · simp at hc
      · exact ih part hp2 c hc
    case isFalse hna =>
      revert hp
      cases hsplit : splitOnSep sep rest with
      | nil => exact absurd hsplit (splitOnSep_ne_nil sep rest)
      | cons p ps =>
        intro hp
        rcases List.mem_cons.mp hp with rfl | hp2
        · rcases List.mem_cons.mp hc with rfl | hc2
          · simpa using hna
          · exact ih p (by simp [hsplit]) c hc2
        · exact ih part (by simp [hsplit, hp2]) c hc

/-! ### IPv4 parsing (WHATWG host model) -/

/-- Digit test for the radix used by the IPv4 number parser. -/
def isRadixDig (radix : Nat) (c : Char) : Bool :=
  if radix = 16 then isHexDig c
  else if radix = 8 then 48 ≤ c.toNat && c.toNat ≤ 55
  else isDig c

/-- Value of a digit string in the given radix. -/
def digitsToNat (radix : Nat) (l : List Char) : Nat :=
  l.foldl (fun a c => a * radix + hexVal c) 0

/-- IPv4 number body after radix detection: empty means zero (as in the
WHATWG parser after removing a `0x` prefix), otherwise all characters must
be digits of the radix. -/
def ipv4Digits (radix : Nat) (digits : List Char) : Option Nat :=
  if digits.isEmpty then some 0
  else if digits.all (isRadixDig radix) then some (digitsToNat radix digits) else none

/-- WHATWG IPv4 number parser: empty input fails; `0x`/`0X` prefix selects
hexadecimal, a leading `0` selects octal, otherwise decimal. -/
def ipv4NumberParse (s : List Char) : Option Nat :=
  match s with
  | [] => none
  | c :: rest =>
    if c = '0' then
      match rest with
      | [] => some 0
      | d :: rest2 =>
        if d = 'x' ∨ d = 'X' then ipv4Digits 16 rest2
        else ipv4Digits 8 rest
    else ipv4Digits 10 s

/-- The last IPv4 part must fit the remaining positions. -/
def ipv4LastOk (nums : List Nat) : Bool :=
  match nums.getLast? with
  | none => false
  | some last => decide (last < 256 ^ (5 - nums.length))

/-- Combine the parsed parts into the 32-bit address value: the last part
fills the remaining low bytes. -/
def ipv4Combine : List Nat → Nat
  | [a] => a
  | [a, b] => a * 16777216 + b
  | [a, b, c] => a * 16777216 + b * 65536 + c
  | [a, b, c, d] => a * 16777216 + b * 65536 + c * 256 + d
  | _ => 0

def isDotSep (c : Char) : Bool := c == '.'

/-- Drop one trailing empty part (a host ending in a single dot), as both
the ends-in-a-number checker and the IPv4 parser do. -/
def dropTrailingEmpty (parts : List (List Char)) : List (List Char) :=
  if parts.getLast? = some [] ∧ 1 < parts.length then parts.dropLast else parts

def hostParts (host : List Char) : List (List Char) :=
  dropTrailingEmpty (splitOnSep isDotSep host)

/-- WHATWG "ends in a number" checker: the last dot-separated label (after
dropping one trailing empty label) is all digits, or parses as an IPv4
number. -/
def endsInNumber (host : List Char) : Bool :=
  match (hostParts host).getLast? with
  | none => false
  | some last => (!last.isEmpty && last.all isDig) || (ipv4NumberParse last).isSome

/-- WHATWG IPv4 parser on the dot-separated labels. -/
def parseIPv4 (host : List Char) : Option Nat :=
  let parts := hostParts host
  if 4 < parts.length then none
  else
    match parts.mapM ipv4NumberParse with
    | none => none
    | some nums =>
      if nums.dropLast.all (fun n => decide (n ≤ 255)) = false then none
      else if ipv4LastOk nums = false then none
      else some (ipv4Combine nums)

/-- Canonical dotted-quad text from four octet values. -/
def ipv4String (o3 o2 o1 o0 : Nat) : List Char :=
  natToDec o3 ++ ('.' :: (natToDec o2 ++ ('.' :: (natToDec o1 ++ ('.' :: natToDec o0)))))

/-- WHATWG IPv4 serializer: dotted decimal, most significant octet first. -/
def serializeIPv4 (n : Nat) : List Char :=
  ipv4String (n / 16777216 % 256) (n / 65536 % 256) (n / 256 % 256) (n % 256)

/-! ### Host parsing -/

/-- ASCII lowercasing (hosts in the model are ASCII). -/
def asciiLower (c : Char) : Char :=
  if 65 ≤ c.toNat ∧ c.toNat ≤ 90 then Char.ofNat (c.toNat + 32) else c

/-- Model of WHATWG host parsing for special schemes: percent-decode,
require ASCII (model restriction: no IDNA/punycode, and `[`-bracketed IPv6
literals fall into the forbidden-code-point rejection), lowercase, reject
forbidden domain code points, and run the IPv4 parser when the host ends in
a number. -/
def parseHost (raw : List Char) : Option (List Char) :=
  if raw.isEmpty then none
  else
    let decoded := percentDecode raw
    if decoded.any (fun c => decide (0x80 ≤ c.toNat)) then none
    else
      let lowered := decoded.map asciiLower
      if lowered.any isForbiddenDomain then none
      else if endsInNumber lowered then
        match parseIPv4 lowered with
        | none => none
        | some n => some (serializeIPv4 n)
      else some lowered

/-! ### URL records and the remaining parser phases -/

/-- Parsed URL record for http/https URLs (no opaque paths). -/
structure UrlRec where
  scheme : List Char
  username : List Char
  password : List Char
  host : List Char
  port : Option Nat
  path : List (List Char)
  query : Option (List Char)
  fragment : Option (List Char)
deriving DecidableEq, Repr

/-- Default port of the scheme (80 for http, 443 for https). -/
def defaultPort (scheme : List Char) : Nat :=
  if scheme = "https".data then 443 else 80

/-- Port parsing: empty means no port; digits only; at most 65535; the
default port of the scheme is dropped.  `none` is parse failure. -/
def parsePort (scheme : List Char) (pr : List Char) : Option (Option Nat) :=
  if pr.isEmpty then some none
  else if pr.all isDig then
    if decToNat pr ≤ 65535 then
      if decToNat pr = defaultPort scheme then some none else some (some (decToNat pr))
    else none
  else none

/-- Userinfo extraction: split at the last `@`; the characters of user and
password are percent-encoded with the userinfo set.  Returns user, password
and the remaining host-port text. -/
def parseUserinfo (auth : List Char) : List Char × List Char × List Char :=
  match splitLast '@' auth with
  | none => ([], [], auth)
  | some (ui, hp) =>
    match splitFirst ':' ui with
    | (u, none) => (encodeList inUserinfoSet u, [], hp)
    | (u, some p) => (encodeList inUserinfoSet u, encodeList inUserinfoSet p, hp)

/-- Authority parsing: userinfo at the last `@`, then host and port at the
first `:`.  An empty host is a failure for special schemes. -/
def parseAuthority (scheme : List Char) (auth : List Char) :
    Option (List Char × List Char × List Char × Option Nat) :=
  match parseUserinfo auth with
  | (user, pass, hostport) =>
    if hostport.isEmpty then none
    else
      match splitFirst ':' hostport with
      | (hostRaw, portRaw) =>
        match parseHost hostRaw with
        | none => none
        | some host =>
          match portRaw with
          | none => some (user, pass, host, none)
          | some pr =>
            match parsePort scheme pr with
            | none => none
            | some port => some (user, pass, host, port)

/-- Case-insensitive ASCII prefix test (the `i` flag of the scheme regex and
the case-insensitive scheme match of the URL parser). -/
def ciStartsWith : List Char → List Char → Bool
  | [], _ => true
  | _ :: _, [] => false
  | p :: ps, c :: cs => (asciiLower c == asciiLower p) && ciStartsWith ps cs

/-- Split off a case-insensitive `http:`/`https:` scheme.  The model only
handles these two schemes; `normalizeUrl` only ever hands the parser a
string beginning with one of them. -/
def schemeSplit (l : List Char) : Option (List Char × List Char) :=
  if ciStartsWith "https:".data l then some ("https".data, l.drop 6)
  else if ciStartsWith "http:".data l then some ("http".data, l.drop 5)
  else none

/-- Special URLs ignore any number of slashes (of either kind) between
`scheme:` and the authority. -/
def stripSlashes : List Char → List Char
  | [] => []
  | c :: rest => if c = '/' || c = '\\' then stripSlashes rest else c :: rest

def isSlash (c : Char) : Bool := c == '/' || c == '\\'

/-- Single-dot path segment test, on the percent-encoded buffer, matching
`.` and `%2e` case-insensitively. -/
def isSingleDotSeg (b : List Char) : Bool :=
  let l := b.map asciiLower
  l == ['.'] || l == ['%', '2', 'e']

/-- Double-dot path segment test on the percent-encoded buffer. -/
def isDoubleDotSeg (b : List Char) : Bool :=
  let l := b.map asciiLower
  l == ['.', '.'] || l == ['.', '%', '2', 'e'] || l == ['%', '2', 'e', '.'] ||
    l == ['%', '2', 'e', '%', '2', 'e']

/-- Remove the last path segment (WHATWG shorten-path for non-file URLs). -/
def shortenPath (p : List (List Char)) : List (List Char) := p.dropLast

/-- Process raw path segments: percent-encode each buffer with the path set,
pop on double-dot, skip single-dot; a dot segment in final position leaves a
trailing empty segment, as in the WHATWG path state. -/
def resolveSegs (acc : List (List Char)) : List (List Char) → List (List Char)
  | [] => acc
  | [b] =>
    let eb := encodeList inPathSet b
    if isDoubleDotSeg eb then shortenPath acc ++ [[]]
    else if isSingleDotSeg eb then acc ++ [[]]
    else acc ++ [eb]
  | b :: rest =>
    let eb := encodeList inPathSet b
    if isDoubleDotSeg eb then resolveSegs (shortenPath acc) rest
    else if isSingleDotSeg eb then resolveSegs acc rest
    else resolveSegs (acc ++ [eb]) rest

/-- Parse the path characters (which begin with a slash when non-empty):
split on slashes of either kind and resolve dot segments.  An absent path
serializes as `/`, i.e. the one-empty-segment path. -/
def parsePath (cs : List Char) : List (List Char) :=
  if cs.isEmpty then [[]]
  else resolveSegs [] ((splitOnSep isSlash cs).drop 1)

/-- Parse the query and fragment from the remainder starting at `?` or `#`. -/
def parseQF (cs : List Char) : Option (List Char) × Option (List Char) :=
  match cs with
  | '?' :: rest =>
    match spanList (fun c => !(c == '#')) rest with
    | (q, rest2) =>
      match rest2 with
      | '#' :: f => (some (encodeList inQuerySet q), some (encodeList inFragmentSet f))
      | _ => (some (encodeList inQuerySet q), none)
  | '#' :: rest => (none, some (encodeList inFragmentSet rest))
  | _ => (none, none)

/-- Leading/trailing C0-control-or-space trimming of the URL parser. -/
def isC0Space (c : Char) : Bool := c.toNat ≤ 0x20

def trimEnds (l : List Char) : List Char :=
  ((l.dropWhile isC0Space).reverse.dropWhile isC0Space).reverse

/-- The URL parser removes all ASCII tabs and newlines. -/
def removeTabNL (l : List Char) : List Char :=
  l.filter (fun c => !(c.toNat = 9 || c.toNat = 10 || c.toNat = 13))

def preprocess (l : List Char) : List Char := removeTabNL (trimEnds l)

/-- Model of the WHATWG URL parser (`new URL(...)`) for absolute
`http:`/`https:` URLs: preprocess, split the scheme, skip slashes, parse the
authority up to a slash/backslash/query/fragment delimiter, then path,
query and fragment. -/
def parseHttp (input : List Char) : Option UrlRec :=
  let cs := preprocess input
  match schemeSplit cs with
  | none => none
  | some (scheme, afterColon) =>
    let rest := stripSlashes afterColon
    match spanList (fun c => !(c == '/' || c == '\\' || c == '?' || c == '#')) rest with
    | (auth, rest1) =>
      match parseAuthority scheme auth with
      | none => none
      | some (user, pass, host, port) =>
        match spanList (fun c => !(c == '?' || c == '#')) rest1 with
        | (pathChars, rest2) =>
          let path := parsePath pathChars
          match parseQF rest2 with
          | (query, fragment) =>
            some { scheme := scheme, username := user, password := pass, host := host,
                   port := port, path := path, query := query, fragment := fragment }

/-- WHATWG URL serializer for the modelled records. -/
def serializeUserinfo (user pass : List Char) : List Char :=
  if user.isEmpty && pass.isEmpty then []
  else user ++ (if pass.isEmpty then [] else ':' :: pass) ++ ['@']

def serializePort : Option Nat → List Char
  | none => []
  | some p => ':' :: natToDec p

def serializePath (path : List (List Char)) : List Char :=
  path.flatMap (fun seg => '/' :: seg)

def serializeQuery : Option (List Char) → List Char
  | none => []
  | some q => '?' :: q

def serializeFrag : Option (List Char) → List Char
  | none => []
  | some f => '#' :: f

/-- The authority text: userinfo, host, port. -/
def serializeAuth (r : UrlRec) : List Char :=
  serializeUserinfo r.username r.password ++ r.host ++ serializePort r.port

/-- Everything after `scheme://`. -/
def serializeTail (r : UrlRec) : List Char :=
  serializeAuth r ++ serializePath r.path ++ serializeQuery r.query ++
    serializeFrag r.fragment

def serializeRec (r : UrlRec) : List Char :=
  r.scheme ++ ':' :: '/' :: '/' :: serializeTail r

/-! ### normalizeUrl (src/app/page.tsx lines 20-47) -/

/-- The test `/^https?:\/\//i.test(input)`. -/
def startsWithHttpScheme (s : String) : Bool :=
  ciStartsWith "http://".data s.data || ciStartsWith "https://".data s.data

/-- `hostname.includes("..")`. -/
def hasDotDot : List Char → Bool
  | '.' :: '.' :: _ => true
  | _ :: rest => hasDotDot rest
  | [] => false

/-- The IPv4 regex octet `25[0-5]|2[0-4]\d|1?\d?\d`. -/
def isRegexOctet (s : List Char) : Bool :=
  match s with
  | [a] => isDig a
  | [a, b] => isDig a && isDig b
  | [a, b, c] =>
    (a = '2' && b = '5' && (48 ≤ c.toNat && c.toNat ≤ 53)) ||
      (a = '2' && (48 ≤ b.toNat && b.toNat ≤ 52) && isDig c) ||
      (a = '1' && isDig b && isDig c)
  | _ => false

/-- The regex `^(25[0-5]|2[0-4]\d|1?\d?\d)(\.(25[0-5]|2[0-4]\d|1?\d?\d)){3}$`:
exactly four dot-separated octets. -/
def ipv4Regex (h : List Char) : Bool :=
  let parts := splitOnSep isDotSep h
  parts.length = 4 && parts.all isRegexOctet

/-- The regex `^[a-z0-9.-]+$` character class. -/
def isDomainPatternChar (c : Char) : Bool :=
  (97 ≤ c.toNat && c.toNat ≤ 122) || isDig c || c = '.' || c = '-'

/-- Translation of `normalizeUrl` from src/app/page.tsx lines 20-47:
prepend `https://` unless the input already starts with an http(s) scheme,
parse, validate the lowercased hostname (localhost, the IPv4 regex, or the
domain-pattern checks plus at least one dot) and the protocol, and return
the canonical serialization; `none` is the null/invalid result. -/
def normalizeUrl (input : String) : Option String :=
  let withProtocol :=
    if startsWithHttpScheme input then input else "https://" ++ input
  match parseHttp withProtocol.data with
  | none => none
  | some parsed =>
    let hostname := parsed.host.map asciiLower
    let isIpv4 := ipv4Regex hostname
    let isLocalhost := hostname = "localhost".data
    let hasValidDomainPattern :=
      hostname.all isDomainPatternChar &&
        !(hostname.headI = '.') && !(hostname.getLastD ' ' = '.') && !(hasDotDot hostname)
    let isHttpProtocol := parsed.scheme = "http".data || parsed.scheme = "https".data
    let isValidHost :=
      isLocalhost || isIpv4 || (hasValidDomainPattern && hostname.contains '.')
    if !isHttpProtocol || !isValidHost then none
    else some (String.mk (serializeRec parsed))

/-! ### Client state machine (src/app/page.tsx, component `Home`)

The component is embedded as a state machine.  React specifics are modelled
as follows: a session change and the re-run of the subscription effect it
triggers (cleanup of the previous effect, then the new effect body) are one
atomic step, matching the claim-level view in which effects settle between
external events; asynchronous collaborator replies are passed into the step
as arguments; unmount discards the component state.  Each handler returns
the new state together with the list of calls issued to the Supabase
collaborator, in order. -/

structure Bookmark where
  id : String
  title : String
  url : String
  created_at : String
deriving DecidableEq, Repr

inductive SubStatus where
  | attaching
  | attached
deriving DecidableEq, Repr

/-- A live realtime channel: the owner it is filtered on and whether the
transport has confirmed the subscription. -/
structure Channel where
  owner : String
  status : SubStatus
deriving DecidableEq, Repr

structure ClientState where
  hasClient : Bool
  session : Option String
  bookmarks : List Bookmark
  title : String
  url : String
  loadingBookmarks : Bool
  addingBookmark : Bool
  deletingId : Option String
  error : Option String
  channel : Option Channel
deriving DecidableEq, Repr

/-- Calls issued to the Supabase collaborator. -/
inductive Call where
  | select (owner : String)
  | insert (title url owner : String)
  | delete (id : String)
  | subscribe (owner : String)
  | removeChannel (owner : String)
  | authSignOut
deriving DecidableEq, Repr

/-- Kind of a postgres change event; the subscription listens with
`event: "*"` and the handler ignores the kind. -/
inductive ChangeKind where
  | insert
  | update
  | delete
deriving DecidableEq, Repr

/-- A collaborator reply to a select: either rows or an error message. -/
abbrev QueryRes := Except String (List Bookmark)

def missingConfigMsg : String :=
  "Missing Supabase config. Set NEXT_PUBLIC_SUPABASE_URL and NEXT_PUBLIC_SUPABASE_ANON_KEY."

def initState (hasClient : Bool) : ClientState :=
  { hasClient := hasClient, session := none, bookmarks := [], title := "", url := "",
    loadingBookmarks := false, addingBookmark := false, deletingId := none, error := none,
    channel := none }

/-- `loadBookmarks` (lines 61-84): guard on the client, issue the select
filtered by the user id ordered by created_at descending, then either
surface the error or replace the whole list with the reply.  The transient
`loadingBookmarks` flag is set and cleared within the step. -/
def loadBookmarks (st : ClientState) (uid : String) (res : QueryRes) :
    ClientState × List Call :=
  if st.hasClient = false then (st, [])
  else
    match res with
    | .error e => ({ st with loadingBookmarks := false, error := some e }, [Call.select uid])
    | .ok rows => ({ st with loadingBookmarks := false, bookmarks := rows }, [Call.select uid])

/-- Cleanup of the subscription effect (lines 147-149): remove the channel
created by the previous effect run, if any. -/
def effectCleanup (st : ClientState) : ClientState × List Call :=
  match st.channel with
  | none => (st, [])
  | some ch => ({ st with channel := none }, [Call.removeChannel ch.owner])

/-- Body of the subscription effect (lines 118-146): guards on the client
and the user id, then opens one channel filtered on `user_id=eq.<uid>`. -/
def effectSetup (st : ClientState) : ClientState × List Call :=
  if st.hasClient = false then (st, [])
  else
    match st.session with
    | none => (st, [])
    | some uid =>
      ({ st with channel := some { owner := uid, status := SubStatus.attaching } },
        [Call.subscribe uid])

/-- Auth state change (lines 105-110) plus the effect re-run it triggers:
store the new session, clear the error, and when the user id changed run the
previous effect cleanup followed by the new effect body.  The listener only
exists when the client is configured (lines 86-89). -/
def handleAuthChange (st : ClientState) (s : Option String) : ClientState × List Call :=
  if st.hasClient = false then (st, [])
  else
    let st1 := { st with session := s, error := none }
    if s = st.session then (st1, [])
    else
      match effectCleanup st1 with
      | (st2, c1) =>
        match effectSetup st2 with
        | (st3, c2) => (st3, c1 ++ c2)

/-- The subscribe-status callback (lines 141-145): on `SUBSCRIBED` the
channel is live and one full refresh for the channel owner runs. -/
def handleSubscribed (st : ClientState) (res : QueryRes) : ClientState × List Call :=
  match st.channel with
  | none => (st, [])
  | some ch =>
    loadBookmarks { st with channel := some { owner := ch.owner, status := SubStatus.attached } }
      ch.owner res

/-- A postgres-changes notification (lines 137-139), delivered only while
the channel is live and only for rows matching the owner filter; the change
kind is ignored (`event: "*"`) and one full refresh runs. -/
def handleNotify (st : ClientState) (_kind : ChangeKind) (res : QueryRes) :
    ClientState × List Call :=
  match st.channel with
  | none => (st, [])
  | some ch => loadBookmarks st ch.owner res

/-- JavaScript whitespace for `String.prototype.trim` (ASCII whitespace,
no-break space, BOM and line/paragraph separators; other rare Unicode
space-separator code points are omitted in the model). -/
def jsWhitespace (c : Char) : Bool :=
  (9 ≤ c.toNat && c.toNat ≤ 13) || c.toNat = 32 || c.toNat = 0xa0 || c.toNat = 0xfeff ||
    c.toNat = 0x2028 || c.toNat = 0x2029

/-- `String.prototype.trim`. -/
def jsTrim (s : String) : String :=
  String.mk (((s.data.dropWhile jsWhitespace).reverse.dropWhile jsWhitespace).reverse)

/-- `addBookmark` (lines 190-230): clear the error, guard on client and
session, trim the title and normalize the url, refuse empty results, then
issue the insert carrying the session's user id and either surface the
error or clear the two inputs. -/
def addBookmark (st : ClientState) (insertRes : Option String) : ClientState × List Call :=
  let st0 := { st with error := none }
  if st.hasClient = false then ({ st0 with error := some missingConfigMsg }, [])
  else
    match st.session with
    | none => ({ st0 with error := some "You must be logged in to add a bookmark." }, [])
    | some uid =>
      let cleanTitle := jsTrim st.title
      let cleanUrl := normalizeUrl (jsTrim st.url)
      if cleanTitle = "" ∨ cleanUrl = none then
        ({ st0 with error := some "Please provide a title and a valid URL." }, [])
      else
        match insertRes with
        | some e =>
          ({ st0 with addingBookmark := false, error := some e },
            [Call.insert cleanTitle (cleanUrl.getD "") uid])
        | none =>
          ({ st0 with addingBookmark := false, title := "", url := "" },
            [Call.insert cleanTitle (cleanUrl.getD "") uid])

/-- `deleteBookmark` (lines 232-250): guard only on the client — there is no
session check — clear the error, issue the delete by id, and surface a
failure.  The transient `deletingId` is set and cleared within the step. -/
def deleteBookmark (st : ClientState) (id : String) (res : Option String) :
    ClientState × List Call :=
  if st.hasClient = false then (st, [])
  else
    let st1 := { st with error := none, deletingId := none }
    match res with
    | some e => ({ st1 with error := some e }, [Call.delete id])
    | none => (st1, [Call.delete id])

/-- `signOut` (lines 174-188): guard on the client, clear the error, call
the auth collaborator, and on success clear the bookmark list.  The session
itself is cleared by the auth state change this triggers. -/
def signOut (st : ClientState) (res : Option String) : ClientState × List Call :=
  if st.hasClient = false then (st, [])
  else
    match res with
    | some e => ({ st with error := some e }, [Call.authSignOut])
    | none => ({ st with error := none, bookmarks := [] }, [Call.authSignOut])

/-- Unmount (process shutdown): the effect cleanup runs and the component
state is discarded. -/
def handleUnmount (st : ClientState) : ClientState × List Call :=
  match effectCleanup st with
  | (st1, c) => (initState st1.hasClient, c)

/-- External events driving the client. -/
inductive Ev where
  | authChange (s : Option String)
  | subscribed (res : QueryRes)
  | notify (kind : ChangeKind) (res : QueryRes)
  | setTitle (t : String)
  | setUrl (u : String)
  | submitAdd (res : Option String)
  | clickDelete (id : String) (res : Option String)
  | clickSignOut (res : Option String)
  | unmount

def stepEv (st : ClientState) : Ev → ClientState × List Call
  | .authChange s => handleAuthChange st s
  | .subscribed res => handleSubscribed st res
  | .notify kind res => handleNotify st kind res
  | .setTitle t => ({ st with title := t }, [])
  | .setUrl u => ({ st with url := u }, [])
  | .submitAdd r => addBookmark st r
  | .clickDelete id r => deleteBookmark st id r
  | .clickSignOut r => signOut st r
  | .unmount => handleUnmount st

/-- Run a list of events from a state, collecting all collaborator calls. -/
def runTrace (st : ClientState) : List Ev → ClientState × List Call
  | [] => (st, [])
  | e :: es =>
    match stepEv st e with
    | (st1, c1) =>
      match runTrace st1 es with
      | (st2, c2) => (st2, c1 ++ c2)

/-! ### getSupabaseClient (src/lib/supabase/client.ts lines 13-24) -/

/-- The module environment: the two `process.env` values, `none` when the
variable is unset. -/
structure SupaEnv where
  url : Option String
  anonKey : Option String
deriving DecidableEq, Repr

/-- JavaScript truthiness of `string | undefined`: false exactly for
`undefined` and the empty string. -/
def truthyStr : Option String → Bool
  | none => false
  | some s => !(s = "")

/-- The module-level cache `browserClient`; client instances are named by
allocation order so that object identity is expressible. -/
structure SupaModuleState where
  browserClient : Option Nat
  nextId : Nat
deriving DecidableEq, Repr

/-- `getSupabaseClient`: null when either config value is falsy, else the
cached instance, else a newly constructed one that is cached. -/
def getSupabaseClient (env : SupaEnv) (ms : SupaModuleState) :
    Option Nat × SupaModuleState :=
  if truthyStr env.url = false ∨ truthyStr env.anonKey = false then (none, ms)
  else
    match ms.browserClient with
    | some c => (some c, ms)
    | none =>
      (some ms.nextId, { browserClient := some ms.nextId, nextId := ms.nextId + 1 })

/-- The results of `n` successive `getSupabaseClient` calls. -/
def clientResults (env : SupaEnv) : Nat → SupaModuleState → List (Option Nat)
  | 0, _ => []
  | n + 1, ms =>
    match getSupabaseClient env ms with
    | (r, ms1) => r :: clientResults env n ms1

/-! ### Subscription invariant machinery (claim C4) -/

/-- The subscription invariant: either no channel exists, or the single
channel's bound owner is the current session's identity. -/
def SubInv (st : ClientState) : Prop :=
  st.channel = none ∨ ∃ ch, st.channel = some ch ∧ st.session = some ch.owner

def liveDelta : Call → Int
  | .subscribe _ => 1
  | .removeChannel _ => -1
  | _ => 0

/-- Net number of live channels opened by a call list. -/
def liveCount : List Call → Int
  | [] => 0
  | c :: rest => liveDelta c + liveCount rest

def chanCount (st : ClientState) : Int := if st.channel.isSome then 1 else 0

theorem liveCount_append (a b : List Call) :
    liveCount (a ++ b) = liveCount a + liveCount b := by
  induction a with
  | nil => simp [liveCount]
  | cons c rest ih => simp [liveCount, ih]; ring

theorem loadBookmarks_frame (st : ClientState) (uid : String) (res : QueryRes) :
    (loadBookmarks st uid res).1.channel = st.channel ∧
      (loadBookmarks st uid res).1.session = st.session ∧
      liveCount (loadBookmarks st uid res).2 = 0 := by
  unfold loadBookmarks
  split
  · simp [liveCount]
  · cases res <;> simp [liveCount, liveDelta]

theorem addBookmark_frame (st : ClientState) (res : Option String) :
    (addBookmark st res).1.channel = st.channel ∧
      (addBookmark st res).1.session = st.session ∧
      liveCount (addBookmark st res).2 = 0 := by
  unfold addBookmark
  dsimp only
  repeat' split
  all_goals simp [liveCount, liveDelta]

theorem deleteBookmark_frame (st : ClientState) (id : String) (res : Option String) :
    (deleteBookmark st id res).1.channel = st.channel ∧
      (deleteBookmark st id res).1.session = st.session ∧
      liveCount (deleteBookmark st id res).2 = 0 := by
  unfold deleteBookmark
  try dsimp only
  repeat' split
  all_goals simp [liveCount, liveDelta]

theorem signOut_frame (st : ClientState) (res : Option String) :
    (signOut st res).1.channel = st.channel ∧
      (signOut st res).1.session = st.session ∧
      liveCount (signOut st res).2 = 0 := by
  unfold signOut
  try dsimp only
  repeat' split
  all_goals simp [liveCount, liveDelta]

theorem stepEv_inv (st : ClientState) (e : Ev) (h : SubInv st) :
    SubInv (stepEv st e).1 ∧
      liveCount (stepEv st e).2 = chanCount (stepEv st e).1 - chanCount st := by
  cases e with
  | authChange s =>
    show SubInv (handleAuthChange st s).1 ∧
      liveCount (handleAuthChange st s).2 = chanCount (handleAuthChange st s).1 - chanCount st
    unfold handleAuthChange
    by_cases hc : st.hasClient = false
    · rw [if_pos hc]
      exact ⟨h, by simp [liveCount, sub_self]⟩
    · rw [if_neg hc]
      by_cases hs : s = st.session
      · rw [if_pos hs]
        refine ⟨?_, by simp [liveCount, chanCount, sub_self]⟩
        rcases h with h | ⟨ch, h1, h2⟩
        · exact Or.inl (by simpa using h)
        · exact Or.inr ⟨ch, by simpa using h1, by simp [hs, h2]⟩
      · rw [if_neg hs]
        cases hch : st.channel with
        | none =>
          simp only [effectCleanup, hch]
          cases s with
          | none =>
            simp only [effectSetup, hc, if_neg]
            exact ⟨Or.inl rfl, by simp [liveCount, chanCount, hch]⟩
          | some uid =>
            simp only [effectSetup, hc, if_neg]
            refine ⟨Or.inr ⟨{ owner := uid, status := SubStatus.attaching }, rfl, rfl⟩, ?_⟩
            simp [chanCount, liveCount, liveDelta, hch]
        | some ch =>
          simp only [effectCleanup, hch]
          cases s with
          | none =>
            simp only [effectSetup, hc, if_neg]
            exact ⟨Or.inl rfl, by simp [liveCount, liveDelta, chanCount, hch]⟩
          | some uid =>
            simp only [effectSetup, hc, if_neg]
            refine ⟨Or.inr ⟨{ owner := uid, status := SubStatus.attaching }, rfl, rfl⟩, ?_⟩
            simp [chanCount, liveCount, liveDelta, hch, liveCount_append]
  | subscribed res =>
    show SubInv (handleSubscribed st res).1 ∧
      liveCount (handleSubscribed st res).2 = chanCount (handleSubscribed st res).1 - chanCount st
    unfold handleSubscribed
    cases hch : st.channel with
    | none =>
      dsimp only
      exact ⟨h, by simp [liveCount, sub_self]⟩
    | some ch =>
      dsimp only
      have hfr := loadBookmarks_frame
        { st with channel := some { owner := ch.owner, status := SubStatus.attached } }
        ch.owner res
      refine ⟨?_, ?_⟩
      · rcases h with h | ⟨ch2, h1, h2⟩
        · rw [hch] at h; simp at h
        · rw [hch] at h1
          injection h1 with h1e
          refine Or.inr ⟨{ owner := ch.owner, status := SubStatus.attached }, ?_, ?_⟩
          · exact hfr.1
          · rw [hfr.2.1]
            show st.session = _
            rw [h2, h1e]
      · rw [hfr.2.2, chanCount, chanCount, hfr.1, hch]
        simp
  | notify kind res =>
    show SubInv (handleNotify st kind res).1 ∧
      liveCount (handleNotify st kind res).2 = chanCount (handleNotify st kind res).1 - chanCount st
    unfold handleNotify
    cases hch : st.channel with
    | none =>
      dsimp only
      exact ⟨h, by simp [liveCount, sub_self]⟩
    | some ch =>
      dsimp only
      have hfr := loadBookmarks_frame st ch.owner res
      refine ⟨?_, ?_⟩
      · rcases h with h | ⟨ch2, h1, h2⟩
        · rw [hch] at h; simp at h
        · exact Or.inr ⟨ch2, hfr.1.trans h1, hfr.2.1.trans h2⟩
      · rw [hfr.2.2, chanCount, chanCount, hfr.1]
        ring
  | setTitle t =>
    show SubInv ({ st with title := t }, ([] : List Call)).1 ∧
      liveCount ({ st with title := t }, ([] : List Call)).2 =
        chanCount ({ st with title := t }, ([] : List Call)).1 - chanCount st
    refine ⟨?_, by simp [liveCount, chanCount]⟩
    rcases h with h | ⟨ch, h1, h2⟩
    · exact Or.inl (by simpa using h)
    · exact Or.inr ⟨ch, by simpa using h1, by simpa using h2⟩
  | setUrl u =>
    show SubInv ({ st with url := u }, ([] : List Call)).1 ∧
      liveCount ({ st with url := u }, ([] : List Call)).2 =
        chanCount ({ st with url := u }, ([] : List Call)).1 - chanCount st
    refine ⟨?_, by simp [liveCount, chanCount]⟩
    rcases h with h | ⟨ch, h1, h2⟩
    · exact Or.inl (by simpa using h)
    · exact Or.inr ⟨ch, by simpa using h1, by simpa using h2⟩
  | submitAdd r =>
    show SubInv (addBookmark st r).1 ∧
      liveCount (addBookmark st r).2 = chanCount (addBookmark st r).1 - chanCount st
    have hfr := addBookmark_frame st r
    refine ⟨?_, ?_⟩
    · rcases h with h | ⟨ch, h1, h2⟩
      · exact Or.inl (hfr.1.trans h)
      · exact Or.inr ⟨ch, hfr.1.trans h1, hfr.2.1.trans h2⟩
    · rw [hfr.2.2, chanCount, chanCount, hfr.1]
      ring
  | clickDelete id r =>
    show SubInv (deleteBookmark st id r).1 ∧
      liveCount (deleteBookmark st id r).2 = chanCount (deleteBookmark st id r).1 - chanCount st
    have hfr := deleteBookmark_frame st id r
    refine ⟨?_, ?_⟩
    · rcases h with h | ⟨ch, h1, h2⟩
      · exact Or.inl (hfr.1.trans h)
      · exact Or.inr ⟨ch, hfr.1.trans h1, hfr.2.1.trans h2⟩
    · rw [hfr.2.2, chanCount, chanCount, hfr.1]
      ring
  | clickSignOut r =>
    show SubInv (signOut st r).1 ∧
      liveCount (signOut st r).2 = chanCount (signOut st r).1 - chanCount st
    have hfr := signOut_frame st r
    refine ⟨?_, ?_⟩
    · rcases h with h | ⟨ch, h1, h2⟩
      · exact Or.inl (hfr.1.trans h)
      · exact Or.inr ⟨ch, hfr.1.trans h1, hfr.2.1.trans h2⟩
    · rw [hfr.2.2, chanCount, chanCount, hfr.1]
      ring
  | unmount =>
    show SubInv (handleUnmount st).1 ∧
      liveCount (handleUnmount st).2 = chanCount (handleUnmount st).1 - chanCount st
    unfold handleUnmount effectCleanup
    cases hch : st.channel with
    | none =>
      dsimp only
      exact ⟨Or.inl rfl, by simp [liveCount, chanCount, initState, hch]⟩
    | some ch =>
      dsimp only
      exact ⟨Or.inl rfl, by simp [liveCount, liveDelta, chanCount, initState, hch]⟩


theorem runTrace_inv (evs : List Ev) (st : ClientState) (h : SubInv st) :
    SubInv (runTrace st evs).1 ∧
      liveCount (runTrace st evs).2 = chanCount (runTrace st evs).1 - chanCount st := by
  induction evs generalizing st with
  | nil => exact ⟨h, by simp [runTrace, liveCount]⟩
  | cons e es ih =>
    have hstep := stepEv_inv st e h
    have hrest := ih (stepEv st e).1 hstep.1
    constructor
    · show SubInv (runTrace st (e :: es)).1
      unfold runTrace
      exact hrest.1
    · show liveCount (runTrace st (e :: es)).2 = _
      unfold runTrace
      rw [liveCount_append, hstep.2, hrest.2]
      ring

/-! ### Claim theorems for the client state machine -/

/-- Claim C4: in every reachable state of the client (any event trace from
the initial state), at most one live change-feed subscription exists — the
net live-channel count of the emitted calls equals the channel count of the
final state and never exceeds one — and the subscription's bound owner
equals the current session's identity, or no subscription exists. -/
theorem subscription_invariant (b : Bool) (evs : List Ev) :
    SubInv (runTrace (initState b) evs).1 ∧
      liveCount (runTrace (initState b) evs).2 = chanCount (runTrace (initState b) evs).1 ∧
      liveCount (runTrace (initState b) evs).2 ≤ 1 := by
  have h := runTrace_inv evs (initState b) (Or.inl rfl)
  have hinit : chanCount (initState b) = 0 := rfl
  have heq : liveCount (runTrace (initState b) evs).2 =
      chanCount (runTrace (initState b) evs).1 := by
    rw [h.2, hinit]
    ring
  refine ⟨h.1, heq, ?_⟩
  rw [heq]
  unfold chanCount
  split <;> simp

/-- Claim C5: on a session transition to `Session(u)` while a subscription
bound to a different situation (session absent or another identity) holds a
channel for `v`, the old channel is removed first and only then is the new
subscription opened in the attaching state bound to `u`; once the transport
confirms, exactly one `list(u)` refresh is issued and the list is replaced
by its rows. -/
theorem session_switch_resubscribes (st : ClientState) (u v : String) (sst : SubStatus)
    (rows : List Bookmark) (hc : st.hasClient = true)
    (hch : st.channel = some { owner := v, status := sst })
    (hne : st.session ≠ some u) :
    (handleAuthChange st (some u)).2 = [Call.removeChannel v, Call.subscribe u] ∧
      (handleAuthChange st (some u)).1.channel =
        some { owner := u, status := SubStatus.attaching } ∧
      (handleAuthChange st (some u)).1.session = some u ∧
      (handleSubscribed (handleAuthChange st (some u)).1 (Except.ok rows)).2 =
        [Call.select u] ∧
      (handleSubscribed (handleAuthChange st (some u)).1 (Except.ok rows)).1.channel =
        some { owner := u, status := SubStatus.attached } ∧
      (handleSubscribed (handleAuthChange st (some u)).1 (Except.ok rows)).1.bookmarks =
        rows := by
  have hs : ¬ (some u = st.session) := fun e => hne e.symm
  have hc2 : ¬ (st.hasClient = false) := by simp [hc]
  simp [handleAuthChange, effectCleanup, effectSetup, handleSubscribed, loadBookmarks,
    hc2, hs, hch]

/-- Witness for C5 at a concrete state. -/
theorem session_switch_resubscribes_witness :
    (handleAuthChange
        { (initState true) with
          session := some "v",
          channel := some { owner := "v", status := SubStatus.attached } } (some "u")).2 =
      [Call.removeChannel "v", Call.subscribe "u"] :=
  (session_switch_resubscribes
    { (initState true) with
      session := some "v",
      channel := some { owner := "v", status := SubStatus.attached } }
    "u" "v" SubStatus.attached [] rfl rfl (by decide)).1

/-- Claim C6: while attached for owner `u`, a change notification (any
change kind — the handler ignores it) triggers exactly one `list(u)`
refresh whose rows replace the in-memory list wholesale. -/
theorem notification_triggers_single_refresh (st : ClientState) (u : String)
    (kind : ChangeKind) (rows : List Bookmark) (hc : st.hasClient = true)
    (hch : st.channel = some { owner := u, status := SubStatus.attached }) :
    (handleNotify st kind (Except.ok rows)).2 = [Call.select u] ∧
      (handleNotify st kind (Except.ok rows)).1.bookmarks = rows := by
  have hc2 : ¬ (st.hasClient = false) := by simp [hc]
  simp [handleNotify, loadBookmarks, hch, hc2]

/-- Witness for C6 at a concrete state. -/
theorem notification_triggers_single_refresh_witness :
    (handleNotify
        { (initState true) with
          session := some "u",
          channel := some { owner := "u", status := SubStatus.attached } }
        ChangeKind.insert (Except.ok [])).2 = [Call.select "u"] :=
  (notification_triggers_single_refresh
    { (initState true) with
      session := some "u",
      channel := some { owner := "u", status := SubStatus.attached } }
    "u" ChangeKind.insert [] rfl rfl).1

/-- Claim C7: a successful sign-out followed by the session transition to
absent clears the cached list, removes the channel and leaves the
subscriber detached; unmount (shutdown) likewise removes the channel and
discards the state. -/
theorem logout_detaches_and_clears (st : ClientState) (u : String)
    (hc : st.hasClient = true) (hs : st.session = some u)
    (hch : st.channel = some { owner := u, status := SubStatus.attached }) :
    (signOut st none).2 = [Call.authSignOut] ∧
      (signOut st none).1.bookmarks = [] ∧
      (signOut st none).1.session = st.session ∧
      (handleAuthChange (signOut st none).1 none).2 = [Call.removeChannel u] ∧
      (handleAuthChange (signOut st none).1 none).1.channel = none ∧
      (handleAuthChange (signOut st none).1 none).1.bookmarks = [] ∧
      (handleAuthChange (signOut st none).1 none).1.session = none ∧
      (handleUnmount st).2 = [Call.removeChannel u] ∧
      (handleUnmount st).1.channel = none ∧
      (handleUnmount st).1.bookmarks = [] := by
  have hc2 : ¬ (st.hasClient = false) := by simp [hc]
  simp [signOut, handleAuthChange, effectCleanup, effectSetup, handleUnmount, initState,
    hc2, hs, hch]

/-- Witness for C7 at a concrete state. -/
theorem logout_detaches_and_clears_witness :
    (signOut
        { (initState true) with
          session := some "u",
          channel := some { owner := "u", status := SubStatus.attached } } none).2 =
      [Call.authSignOut] :=
  (logout_detaches_and_clears
    { (initState true) with
      session := some "u",
      channel := some { owner := "u", status := SubStatus.attached } }
    "u" rfl rfl rfl).1

/-- Claim C8: every insert call emitted by any event step carries the
current session's user id as its owner field; the step functions take no
caller-supplied owner at all. -/
theorem insert_carries_acting_identity (st : ClientState) (e : Ev) (t u o : String)
    (hmem : Call.insert t u o ∈ (stepEv st e).2) : st.session = some o := by
  cases e with
  | authChange s =>
    have hm : Call.insert t u o ∈ (handleAuthChange st s).2 := hmem
    unfold handleAuthChange effectCleanup effectSetup at hm
    cases s
    all_goals cases hch : st.channel
    all_goals rw [hch] at hm
    all_goals repeat' split at hm
    all_goals simp_all
  | subscribed res =>
    have hm : Call.insert t u o ∈ (handleSubscribed st res).2 := hmem
    unfold handleSubscribed loadBookmarks at hm
    cases hch : st.channel
    all_goals rw [hch] at hm
    all_goals repeat' split at hm
    all_goals simp_all
  | notify kind res =>
    have hm : Call.insert t u o ∈ (handleNotify st kind res).2 := hmem
    unfold handleNotify loadBookmarks at hm
    cases hch : st.channel
    all_goals rw [hch] at hm
    all_goals repeat' split at hm
    all_goals simp_all
  | setTitle t2 => simp [stepEv] at hmem
  | setUrl u2 => simp [stepEv] at hmem
  | submitAdd r =>
    have hm : Call.insert t u o ∈ (addBookmark st r).2 := hmem
    unfold addBookmark at hm
    dsimp only at hm
    cases hs : st.session
    all_goals rw [hs] at hm
    all_goals repeat' split at hm
    all_goals simp_all
  | clickDelete id r =>
    have hm : Call.insert t u o ∈ (deleteBookmark st id r).2 := hmem
    unfold deleteBookmark at hm
    repeat' split at hm
    all_goals simp_all
  | clickSignOut r =>
    have hm : Call.insert t u o ∈ (signOut st r).2 := hmem
    unfold signOut at hm
    repeat' split at hm
    all_goals simp_all
  | unmount =>
    have hm : Call.insert t u o ∈ (handleUnmount st).2 := hmem
    unfold handleUnmount effectCleanup at hm
    cases hch : st.channel
    all_goals rw [hch] at hm
    all_goals simp_all

/-- Witness for C8: a concrete add step whose insert carries the session's
user id. -/
theorem insert_carries_acting_identity_witness :
    ({ (initState true) with
      session := some "u1", title := "t", url := "example.com" } : ClientState).session =
      some "u1" :=
  insert_carries_acting_identity
    { (initState true) with
      session := some "u1", title := "t", url := "example.com" }
    (Ev.submitAdd none) "t" "https://example.com/" "u1" (by decide)

/-- Claim C9: if after trimming the title is empty or the url fails
normalization, the add step issues no call at all and surfaces the
validation error message. -/
theorem add_validation_guard (st : ClientState) (res : Option String) (uid : String)
    (hc : st.hasClient = true) (hs : st.session = some uid)
    (hbad : jsTrim st.title = "" ∨ normalizeUrl (jsTrim st.url) = none) :
    (addBookmark st res).2 = [] ∧
      (addBookmark st res).1.error = some "Please provide a title and a valid URL." := by
  have hc2 : ¬ (st.hasClient = false) := by simp [hc]
  unfold addBookmark
  dsimp only
  rw [if_neg hc2, hs]
  simp [hbad]

/-- Witness for C9: empty title after trimming. -/
theorem add_validation_guard_witness :
    (addBookmark
        { (initState true) with
          session := some "u1", title := "  ", url := "example.com" } none).2 = [] :=
  (add_validation_guard
    { (initState true) with
      session := some "u1", title := "  ", url := "example.com" }
    none "u1" rfl rfl (Or.inl (by decide))).1

/-- Counterexample to claim C3 as stated: with no session present,
`deleteBookmark` does not fail with an unauthenticated error — it issues
the delete call to the storage collaborator anyway. -/
theorem unauthenticated_ops_counterexample :
    (initState true).session = none ∧
      (deleteBookmark (initState true) "b1" none).2 = [Call.delete "b1"] ∧
      (deleteBookmark (initState true) "b1" none).1.error = none := by
  refine ⟨rfl, ?_, ?_⟩ <;> rfl

/-- Claim C3 as amended: only the insert path checks the session — with no
session, `addBookmark` fails with the logged-in error and issues no call —
while `deleteBookmark` and `loadBookmarks` issue their storage calls
without any session check, relying on the server-side row-level policy. -/
theorem session_gating_amended (st : ClientState) (res : Option String) (id uid : String)
    (qres : QueryRes) (hc : st.hasClient = true) (hs : st.session = none) :
    (addBookmark st res).2 = [] ∧
      (addBookmark st res).1.error = some "You must be logged in to add a bookmark." ∧
      (deleteBookmark st id res).2 = [Call.delete id] ∧
      (loadBookmarks st uid qres).2 = [Call.select uid] := by
  have hc2 : ¬ (st.hasClient = false) := by simp [hc]
  refine ⟨?_, ?_, ?_, ?_⟩
  · unfold addBookmark
    dsimp only
    rw [if_neg hc2, hs]
  · unfold addBookmark
    dsimp only
    rw [if_neg hc2, hs]
  · unfold deleteBookmark
    rw [if_neg hc2]
    cases res <;> rfl
  · unfold loadBookmarks
    rw [if_neg hc2]
    cases qres <;> rfl

/-- Witness for the amended C3 at a concrete state. -/
theorem session_gating_amended_witness :
    (addBookmark (initState true) none).2 = [] ∧
      (deleteBookmark (initState true) "b1" none).2 = [Call.delete "b1"] := by
  have h := session_gating_amended (initState true) none "b1" "u" (Except.ok []) rfl rfl
  exact ⟨h.1, h.2.2.1⟩

/-- Counterexample to claim C10 as stated: both config values are present
(set, but the URL is the empty string) yet `getSupabaseClient` returns
null, because the source tests JavaScript truthiness, not absence. -/
theorem getSupabaseClient_counterexample :
    (SupaEnv.mk (some "") (some "k")).url ≠ none ∧
      (SupaEnv.mk (some "") (some "k")).anonKey ≠ none ∧
      (getSupabaseClient (SupaEnv.mk (some "") (some "k"))
          (SupaModuleState.mk none 0)).1 = none := by
  refine ⟨by simp, by simp, rfl⟩

/-- Once the module cache holds an instance, every further call returns it
unchanged. -/
theorem clientResults_cached (env : SupaEnv) (hu : truthyStr env.url = true)
    (hk : truthyStr env.anonKey = true) (c : Nat) :
    ∀ n ms, ms.browserClient = some c →
      clientResults env n ms = List.replicate n (some c) := by
  intro n
  induction n with
  | zero => intro ms h; rfl
  | succ m ih =>
    intro ms h
    unfold clientResults getSupabaseClient
    rw [if_neg (by simp [hu, hk]), h]
    simp only []
    rw [ih ms h]
    simp [List.replicate_succ]

/-- Claim C10 as amended: `getSupabaseClient` returns null exactly when
either config value is absent or empty (falsy), and otherwise every call
returns the same single instance — the first call constructs it and every
later call returns that same object. -/
theorem getSupabaseClient_singleton (env : SupaEnv) (n k : Nat)
    (hu : truthyStr env.url = true) (hk : truthyStr env.anonKey = true) :
    (∀ env2 ms2, ((getSupabaseClient env2 ms2).1 = none ↔
        (truthyStr env2.url = false ∨ truthyStr env2.anonKey = false))) ∧
      clientResults env n (SupaModuleState.mk none k) = List.replicate n (some k) := by
  constructor
  · intro env2 ms2
    unfold getSupabaseClient
    by_cases h : truthyStr env2.url = false ∨ truthyStr env2.anonKey = false
    · simp [h]
    · rw [if_neg h]
      cases ms2.browserClient <;> simp [h]
  · cases n with
    | zero => rfl
    | succ m =>
      show clientResults env (m + 1) (SupaModuleState.mk none k) = _
      unfold clientResults getSupabaseClient
      rw [if_neg (by simp [hu, hk])]
      simp only []
      rw [clientResults_cached env hu hk k m (SupaModuleState.mk (some k) (k + 1)) rfl]
      simp [List.replicate_succ]

/-- Witness for the amended C10: with both config values set, three calls
all return the first constructed instance; with a falsy value the result is
null. -/
theorem getSupabaseClient_singleton_witness :
    clientResults (SupaEnv.mk (some "u") (some "k")) 3 (SupaModuleState.mk none 0) =
        List.replicate 3 (some 0) ∧
      (getSupabaseClient (SupaEnv.mk none (some "k")) (SupaModuleState.mk none 0)).1 =
        none := by
  have h := getSupabaseClient_singleton (SupaEnv.mk (some "u") (some "k")) 3 0 rfl rfl
  exact ⟨h.2, (h.1 (SupaEnv.mk none (some "k")) (SupaModuleState.mk none 0)).mpr
    (Or.inl rfl)⟩

/-! ### Character facts for the round-trip proofs -/

theorem toNat_ofNat_valid (n : Nat) (h : n < 0xd800) : (Char.ofNat n).toNat = n := by
  unfold Char.ofNat
  rw [dif_pos (Or.inl h)]
  rfl

theorem asciiLower_toNat (c : Char) :
    (asciiLower c).toNat =
      if 65 ≤ c.toNat ∧ c.toNat ≤ 90 then c.toNat + 32 else c.toNat := by
  unfold asciiLower
  split
  case isTrue h => rw [toNat_ofNat_valid _ (by omega)]
  case isFalse h => rfl

theorem asciiLower_id (c : Char) (h : ¬(65 ≤ c.toNat ∧ c.toNat ≤ 90)) :
    asciiLower c = c := by
  unfold asciiLower
  rw [if_neg h]

theorem asciiLower_idem (c : Char) : asciiLower (asciiLower c) = asciiLower c := by
  by_cases h : 65 ≤ c.toNat ∧ c.toNat ≤ 90
  · apply asciiLower_id
    rw [asciiLower_toNat, if_pos h]
    omega
  · rw [asciiLower_id c h, asciiLower_id c h]

theorem asciiLower_lt (c : Char) (h : c.toNat < 0x80) : (asciiLower c).toNat < 0x80 := by
  rw [asciiLower_toNat]
  split <;> omega

/-! ### Canonicality of parser output -/

/-- A path segment as the parser produces it: percent-encoded characters
that are not slashes, and not a dot segment. -/
def SegOk (seg : List Char) : Prop :=
  (∀ c ∈ seg, inPathSet c = false ∧ c ≠ '/' ∧ c ≠ '\\') ∧
    isSingleDotSeg seg = false ∧ isDoubleDotSeg seg = false

/-- A character of a canonical domain: ASCII, not a forbidden domain code
point, already lowercase. -/
def DomainChar (c : Char) : Prop :=
  c.toNat < 0x80 ∧ isForbiddenDomain c = false ∧ asciiLower c = c

/-- A canonical host: either a serialized dotted quad or a non-empty
canonical domain that does not end in a number. -/
def HostCanonical (h : List Char) : Prop :=
  (∃ o3 o2 o1 o0, o3 ≤ 255 ∧ o2 ≤ 255 ∧ o1 ≤ 255 ∧ o0 ≤ 255 ∧ h = ipv4String o3 o2 o1 o0) ∨
    (h ≠ [] ∧ (∀ c ∈ h, DomainChar c) ∧ endsInNumber h = false)

/-- Everything the serializer needs to reparse to the same record. -/
structure Canonical (r : UrlRec) : Prop where
  scheme_ok : r.scheme = "http".data ∨ r.scheme = "https".data
  user_ok : ∀ c ∈ r.username, inUserinfoSet c = false
  pass_ok : ∀ c ∈ r.password, inUserinfoSet c = false
  host_ok : HostCanonical r.host
  port_ok : ∀ p ∈ r.port, p ≤ 65535 ∧ p ≠ defaultPort r.scheme
  path_ne : r.path ≠ []
  path_ok : ∀ seg ∈ r.path, SegOk seg
  query_ok : ∀ q ∈ r.query, ∀ c ∈ q, inQuerySet c = false
  frag_ok : ∀ f ∈ r.fragment, ∀ c ∈ f, inFragmentSet c = false

/-- Generic transport of a character property through percent-encoding. -/
theorem encodeList_chars (inSet : Char → Bool) (P : Char → Prop) (hpc : P '%')
    (hhex : ∀ n, n < 16 → P (hexDigitChar n)) :
    ∀ l, (∀ c ∈ l, P c) → ∀ c ∈ encodeList inSet l, P c := by
  intro l
  induction l with
  | nil => intro _ c hc; simp [encodeList] at hc
  | cons a rest ih =>
    intro hl x hx
    rw [encodeList_cons] at hx
    rcases List.mem_append.mp hx with h | h
    · unfold encodeChar at h
      split at h
      case isTrue =>
        rcases List.mem_flatMap.mp h with ⟨b, _, hb2⟩
        unfold encodeByte at hb2
        simp only [List.mem_cons, List.not_mem_nil, or_false] at hb2
        rcases hb2 with rfl | rfl | rfl
        · exact hpc
        · exact hhex _ (Nat.mod_lt _ (by omega))
        · exact hhex _ (Nat.mod_lt _ (by omega))
      case isFalse =>
        simp only [List.mem_singleton] at h
        subst h
        exact hl _ (by simp)
    · exact ih (fun y hy => hl y (by simp [hy])) x h

theorem spanList_cons_pos (p : Char → Bool) (c : Char) (r : List Char) (h : p c = true) :
    spanList p (c :: r) = (c :: (spanList p r).1, (spanList p r).2) := by
  simp [spanList, h]

theorem spanList_cons_neg (p : Char → Bool) (c : Char) (r : List Char) (h : p c = false) :
    spanList p (c :: r) = ([], c :: r) := by
  simp [spanList, h]

theorem spanList_snd_head (p : Char → Bool) (l : List Char) :
    (spanList p l).2 = [] ∨
      ∃ c rest, (spanList p l).2 = c :: rest ∧ p c = false := by
  induction l with
  | nil => exact Or.inl rfl
  | cons a r ih =>
    cases h : p a with
    | true => rw [spanList_cons_pos p a r h]; exact ih
    | false => exact Or.inr ⟨a, r, by rw [spanList_cons_neg p a r h], h⟩

theorem segOk_nil : SegOk [] := by
  refine ⟨by simp, by decide, by decide⟩

theorem segOk_encode (b : List Char) (hb : ∀ c ∈ b, isSlash c = false)
    (h1 : isSingleDotSeg (encodeList inPathSet b) = false)
    (h2 : isDoubleDotSeg (encodeList inPathSet b) = false) :
    SegOk (encodeList inPathSet b) := by
  have hne : ∀ c ∈ encodeList inPathSet b, c ≠ '/' ∧ c ≠ '\\' := by
    apply encodeList_chars inPathSet (fun c => c ≠ '/' ∧ c ≠ '\\') (by decide)
      (by decide)
    intro x hx
    have hs := hb x hx
    unfold isSlash at hs
    simp only [Bool.or_eq_false_iff, beq_eq_false_iff_ne, ne_eq] at hs
    exact ⟨hs.1, hs.2⟩
  refine ⟨?_, h1, h2⟩
  intro c hc
  exact ⟨encodeList_not_inSet inPathSet path_sub_userinfo b c hc, (hne c hc).1, (hne c hc).2⟩

theorem resolveSegs_ne_nil :
    ∀ (segs : List (List Char)) (acc : List (List Char)), segs ≠ [] →
      resolveSegs acc segs ≠ [] := by
  intro segs
  induction segs with
  | nil => intro acc h; exact absurd rfl h
  | cons b t ih =>
    intro acc _
    cases t with
    | nil =>
      show resolveSegs acc [b] ≠ []
      unfold resolveSegs
      dsimp only
      split
      · simp
      · split <;> simp
    | cons c rest =>
      show resolveSegs acc (b :: c :: rest) ≠ []
      unfold resolveSegs
      dsimp only
      split
      · exact ih _ (by simp)
      · split
        · exact ih _ (by simp)
        · exact ih _ (by simp)

theorem resolveSegs_all_ok :
    ∀ (segs : List (List Char)) (acc : List (List Char)),
      (∀ seg ∈ acc, SegOk seg) → (∀ b ∈ segs, ∀ c ∈ b, isSlash c = false) →
      ∀ seg ∈ resolveSegs acc segs, SegOk seg := by
  intro segs
  induction segs with
  | nil => intro acc hacc _; exact fun seg hs => hacc seg hs
  | cons b t ih =>
    intro acc hacc hsegs
    have hb : ∀ c ∈ b, isSlash c = false := hsegs b (by simp)
    have hdrop : ∀ seg ∈ shortenPath acc, SegOk seg := by
      intro seg hs
      exact hacc seg (List.dropLast_subset acc hs)
    cases t with
    | nil =>
      show ∀ seg ∈ resolveSegs acc [b], SegOk seg
      unfold resolveSegs
      dsimp only
      split
      case isTrue =>
        intro seg hs
        rcases List.mem_append.mp hs with h | h
        · exact hdrop seg h
        · simp only [List.mem_singleton] at h; subst h; exact segOk_nil
      case isFalse hdd =>
        split
        case isTrue =>
          intro seg hs
          rcases List.mem_append.mp hs with h | h
          · exact hacc seg h
          · simp only [List.mem_singleton] at h; subst h; exact segOk_nil
        case isFalse hsd =>
          intro seg hs
          rcases List.mem_append.mp hs with h | h
          · exact hacc seg h
          · simp only [List.mem_singleton] at h
            subst h
            exact segOk_encode b hb (by simpa using hsd) (by simpa using hdd)
    | cons c rest =>
      have ht : ∀ b2 ∈ c :: rest, ∀ x ∈ b2, isSlash x = false :=
        fun b2 h2 => hsegs b2 (by simp [h2])
      show ∀ seg ∈ resolveSegs acc (b :: c :: rest), SegOk seg
      unfold resolveSegs
      dsimp only
      split
      case isTrue => exact ih _ hdrop ht
      case isFalse hdd =>
        split
        case isTrue => exact ih _ hacc ht
        case isFalse hsd =>
          refine ih _ ?_ ht
          intro seg hs
          rcases List.mem_append.mp hs with h | h
          · exact hacc seg h
          · simp only [List.mem_singleton] at h
            subst h
            exact segOk_encode b hb (by simpa using hsd) (by simpa using hdd)

theorem parsePath_ok (cs : List Char)
    (hhead : cs = [] ∨ ∃ c rest, cs = c :: rest ∧ isSlash c = true) :
    parsePath cs ≠ [] ∧ ∀ seg ∈ parsePath cs, SegOk seg := by
  rcases hhead with rfl | ⟨c, rest, rfl, hc⟩
  · constructor
    · simp [parsePath]
    · intro seg hs
      simp only [parsePath, List.isEmpty_nil, if_pos, List.mem_singleton] at hs
      subst hs
      exact segOk_nil
  · have hsplit : splitOnSep isSlash (c :: rest) = [] :: splitOnSep isSlash rest := by
      have h2 := splitOnSep_append isSlash [] c rest (by simp) hc
      simpa using h2
    have hps : parsePath (c :: rest) = resolveSegs [] (splitOnSep isSlash rest) := by
      unfold parsePath
      rw [if_neg (by simp), hsplit]
      simp
    rw [hps]
    have hparts := splitOnSep_parts isSlash rest
    constructor
    · exact resolveSegs_ne_nil _ _ (splitOnSep_ne_nil isSlash rest)
    · exact resolveSegs_all_ok _ [] (by simp) hparts

theorem parsePort_ok (scheme pr : List Char) (port : Option Nat)
    (h : parsePort scheme pr = some port) :
    ∀ p ∈ port, p ≤ 65535 ∧ p ≠ defaultPort scheme := by
  unfold parsePort at h
  split at h
  · injection h with h; subst h; simp
  · split at h
    · split at h
      · split at h
        · injection h with h; subst h; simp
        case isFalse hne =>
          injection h with h
          subst h
          intro p hp
          simp only [Option.mem_def, Option.some.injEq] at hp
          subst hp
          exact ⟨by omega, hne⟩
      · exact absurd h (by simp)
    · exact absurd h (by simp)

theorem parseHost_canonical (raw h : List Char) (hp : parseHost raw = some h) :
    HostCanonical h := by
  unfold parseHost at hp
  split at hp
  · exact absurd hp (by simp)
  case isFalse hraw =>
    dsimp only at hp
    split at hp
    · exact absurd hp (by simp)
    case isFalse hascii =>
      split at hp
      · exact absurd hp (by simp)
      case isFalse hforb =>
        split at hp
        case isTrue hnum =>
          split at hp
          · exact absurd hp (by simp)
          case h_2 n hn =>
            injection hp with hp
            subst hp
            exact Or.inl ⟨_, _, _, _, by omega, by omega, by omega, by omega, rfl⟩
        case isFalse hnum =>
          injection hp with hp
          subst hp
          refine Or.inr ⟨?_, ?_, by simpa using hnum⟩
          · intro e
            have : percentDecode raw = [] := by
              have := congrArg List.length e
              simp at this
              exact List.eq_nil_of_length_eq_zero (by simpa using this)
            exact percentDecode_ne_nil raw (by simpa using hraw) this
          · intro c hc
            rcases List.mem_map.mp hc with ⟨d, hd, rfl⟩
            have hd80 : d.toNat < 0x80 := by
              by_contra hge
              have : (percentDecode raw).any (fun c => decide (0x80 ≤ c.toNat)) = true :=
                List.any_eq_true.mpr ⟨d, hd, by simp; omega⟩
              simp [this] at hascii
            refine ⟨asciiLower_lt d hd80, ?_, asciiLower_idem d⟩
            by_contra hf
            have : ((percentDecode raw).map asciiLower).any isForbiddenDomain = true :=
              List.any_eq_true.mpr ⟨asciiLower d, List.mem_map.mpr ⟨d, hd, rfl⟩, by
                simpa using hf⟩
            simp [this] at hforb

theorem schemeSplit_ok (l sch rest : List Char) (h : schemeSplit l = some (sch, rest)) :
    sch = "http".data ∨ sch = "https".data := by
  unfold schemeSplit at h
  split at h
  · injection h with h
    exact Or.inr (congrArg Prod.fst h).symm
  · split at h
    · injection h with h
      exact Or.inl (congrArg Prod.fst h).symm
    · exact absurd h (by simp)

theorem parseQF_ok (cs : List Char) :
    (∀ q, (parseQF cs).1 = some q → ∀ c ∈ q, inQuerySet c = false) ∧
      (∀ f, (parseQF cs).2 = some f → ∀ c ∈ f, inFragmentSet c = false) := by
  unfold parseQF
  split
  case h_1 rest =>
    rcases hsp : spanList (fun c => !(c == '#')) rest with ⟨qc, rest2⟩
    constructor
    · intro q hq
      dsimp only at hq
      split at hq
      all_goals dsimp only at hq
      all_goals injection hq with hq
      all_goals subst hq
      all_goals exact encodeList_not_inSet inQuerySet query_sub_userinfo _
    · intro f hf
      dsimp only at hf
      split at hf
      · dsimp only at hf
        injection hf with hf
        subst hf
        exact encodeList_not_inSet inFragmentSet frag_sub_userinfo _
      · exact absurd hf (by simp)
  case h_2 rest =>
    constructor
    · intro q hq
      exact absurd hq (by simp)
    · intro f hf
      dsimp only at hf
      injection hf with hf
      subst hf
      exact encodeList_not_inSet inFragmentSet frag_sub_userinfo _
  case h_3 =>
    exact ⟨fun q hq => absurd hq (by simp), fun f hf => absurd hf (by simp)⟩

theorem parseUserinfo_ok (auth : List Char) :
    (∀ c ∈ (parseUserinfo auth).1, inUserinfoSet c = false) ∧
      (∀ c ∈ (parseUserinfo auth).2.1, inUserinfoSet c = false) := by
  unfold parseUserinfo
  split
  · exact ⟨by simp, by simp⟩
  · split
    · exact ⟨encodeList_not_inSet inUserinfoSet (fun c hc => hc) _, by simp⟩
    · exact ⟨encodeList_not_inSet inUserinfoSet (fun c hc => hc) _,
        encodeList_not_inSet inUserinfoSet (fun c hc => hc) _⟩

theorem parseAuthority_ok (scheme auth user pass host : List Char) (port : Option Nat)
    (h : parseAuthority scheme auth = some (user, pass, host, port)) :
    (∀ c ∈ user, inUserinfoSet c = false) ∧ (∀ c ∈ pass, inUserinfoSet c = false) ∧
      HostCanonical host ∧ (∀ p ∈ port, p ≤ 65535 ∧ p ≠ defaultPort scheme) := by
  have hui := parseUserinfo_ok auth
  unfold parseAuthority at h
  rcases hpu : parseUserinfo auth with ⟨user0, pass0, hostport0⟩
  rw [hpu] at h hui
  dsimp only at h hui
  split at h
  case isTrue => exact absurd h (by simp)
  case isFalse hne =>
    split at h
    case h_1 => exact absurd h (by simp)
    case h_2 hostv hhost =>
      have hcan := parseHost_canonical _ hostv hhost
      split at h
      case h_1 =>
        simp only [Option.some.injEq, Prod.mk.injEq] at h
        obtain ⟨rfl, rfl, rfl, rfl⟩ := h
        exact ⟨hui.1, hui.2, hcan, by simp⟩
      case h_2 prv hpreq =>
        split at h
        case h_1 => exact absurd h (by simp)
        case h_2 portv hport =>
          simp only [Option.some.injEq, Prod.mk.injEq] at h
          obtain ⟨rfl, rfl, rfl, rfl⟩ := h
          exact ⟨hui.1, hui.2, hcan, parsePort_ok scheme prv portv hport⟩

theorem parseHttp_canonical (input : List Char) (r : UrlRec)
    (h : parseHttp input = some r) : Canonical r := by
  unfold parseHttp at h
  dsimp only at h
  split at h
  case h_1 => exact absurd h (by simp)
  case h_2 scheme afterColon hscheme =>
    try dsimp only at h
    split at h
    case h_1 => exact absurd h (by simp)
    case h_2 user pass host port hauth =>
      try dsimp only at h
      injection h with h
      subst h
      have hsch := schemeSplit_ok _ _ _ hscheme
      have hauths := parseAuthority_ok _ _ _ _ _ _ hauth
      constructor
      case scheme_ok => exact hsch
      case user_ok => exact hauths.1
      case pass_ok => exact hauths.2.1
      case host_ok => exact hauths.2.2.1
      case port_ok => exact hauths.2.2.2
      case path_ne =>
        apply (parsePath_ok _ ?_).1
        rcases spanList_snd_head
            (fun c => !(c == '/' || c == '\\' || c == '?' || c == '#'))
            (stripSlashes afterColon) with h1 | ⟨c, r2, h1, hA⟩
        · rw [h1]
          exact Or.inl rfl
        · rw [h1]
          cases hB : (fun c => !(c == '?' || c == '#')) c with
          | false =>
            rw [spanList_cons_neg _ _ _ hB]
            exact Or.inl rfl
          | true =>
            rw [spanList_cons_pos _ _ _ hB]
            refine Or.inr ⟨c, _, rfl, ?_⟩
            simp at hA hB
            unfold isSlash
            by_cases h2 : c = '/'
            · simp [h2]
            · by_cases h3 : c = '\\'
              · simp [h3]
              · exact absurd (hA h2 h3 hB.1) hB.2
      case path_ok =>
        apply (parsePath_ok _ ?_).2
        rcases spanList_snd_head
            (fun c => !(c == '/' || c == '\\' || c == '?' || c == '#'))
            (stripSlashes afterColon) with h1 | ⟨c, r2, h1, hA⟩
        · rw [h1]
          exact Or.inl rfl
        · rw [h1]
          cases hB : (fun c => !(c == '?' || c == '#')) c with
          | false =>
            rw [spanList_cons_neg _ _ _ hB]
            exact Or.inl rfl
          | true =>
            rw [spanList_cons_pos _ _ _ hB]
            refine Or.inr ⟨c, _, rfl, ?_⟩
            simp at hA hB
            unfold isSlash
            by_cases h2 : c = '/'
            · simp [h2]
            · by_cases h3 : c = '\\'
              · simp [h3]
              · exact absurd (hA h2 h3 hB.1) hB.2
      case query_ok =>
        intro q hq
        exact (parseQF_ok _).1 q (Option.mem_def.mp hq)
      case frag_ok =>
        intro f hf
        exact (parseQF_ok _).2 f (Option.mem_def.mp hf)

/-! ### Serialization characters and preprocessing identity -/

theorem not_userinfo_gt20 (c : Char) (h : inUserinfoSet c = false) : 0x20 < c.toNat := by
  simp only [inUserinfoSet, inPathSet, inQuerySet, isC0OrHigh, Bool.or_eq_false_iff,
    decide_eq_false_iff_not] at h
  omega

theorem not_query_gt20 (c : Char) (h : inQuerySet c = false) : 0x20 < c.toNat := by
  simp only [inQuerySet, isC0OrHigh, Bool.or_eq_false_iff, decide_eq_false_iff_not] at h
  omega

theorem not_frag_gt20 (c : Char) (h : inFragmentSet c = false) : 0x20 < c.toNat := by
  simp only [inFragmentSet, isC0OrHigh, Bool.or_eq_false_iff, decide_eq_false_iff_not] at h
  omega

theorem not_path_gt20 (c : Char) (h : inPathSet c = false) : 0x20 < c.toNat := by
  simp only [inPathSet, inQuerySet, isC0OrHigh, Bool.or_eq_false_iff,
    decide_eq_false_iff_not] at h
  omega

theorem not_forbidden_gt20 (c : Char) (h : isForbiddenDomain c = false) : 0x20 < c.toNat := by
  simp only [isForbiddenDomain, Bool.or_eq_false_iff, decide_eq_false_iff_not] at h
  omega

theorem isDig_gt20 (c : Char) (h : isDig c = true) : 0x20 < c.toNat := by
  simp only [isDig, Bool.and_eq_true, decide_eq_true_eq] at h
  omega

theorem ipv4String_chars (o3 o2 o1 o0 : Nat) (h3 : o3 ≤ 255) (h2 : o2 ≤ 255)
    (h1 : o1 ≤ 255) (h0 : o0 ≤ 255) :
    ∀ c ∈ ipv4String o3 o2 o1 o0, isDig c = true ∨ c = '.' := by
  intro c hc
  unfold ipv4String at hc
  have hdig : ∀ o, o ≤ 255 → c ∈ natToDec o → isDig c = true := by
    intro o ho hm
    have := natToDec_all_dig o (by omega)
    rw [List.all_eq_true] at this
    exact this c hm
  rcases List.mem_append.mp hc with h | hc2
  · exact Or.inl (hdig o3 h3 h)
  · rcases List.mem_cons.mp hc2 with rfl | hc3
    · exact Or.inr rfl
    · rcases List.mem_append.mp hc3 with h | hc4
      · exact Or.inl (hdig o2 h2 h)
      · rcases List.mem_cons.mp hc4 with rfl | hc5
        · exact Or.inr rfl
        · rcases List.mem_append.mp hc5 with h | hc6
          · exact Or.inl (hdig o1 h1 h)
          · rcases List.mem_cons.mp hc6 with rfl | hc7
            · exact Or.inr rfl
            · exact Or.inl (hdig o0 h0 hc7)

theorem hostCanonical_chars (h : List Char) (hc : HostCanonical h) :
    ∀ c ∈ h, 0x20 < c.toNat := by
  intro c hm
  rcases hc with ⟨o3, o2, o1, o0, h3, h2, h1, h0, rfl⟩ | ⟨_, hdom, _⟩
  · rcases ipv4String_chars o3 o2 o1 o0 h3 h2 h1 h0 c hm with hd | hd
    · exact isDig_gt20 c hd
    · subst hd; decide
  · exact not_forbidden_gt20 c (hdom c hm).2.1

theorem serializeRec_chars (r : UrlRec) (hcan : Canonical r) :
    ∀ c ∈ serializeRec r, 0x20 < c.toNat := by
  intro c hcm
  unfold serializeRec serializeTail serializeAuth at hcm
  simp only [List.mem_append, List.mem_cons] at hcm
  rcases hcm with hs | hcm
  · rcases hcan.scheme_ok with he | he
    · rw [he] at hs
      have hh : ∀ x ∈ "http".data, 0x20 < x.toNat := by decide
      exact hh c hs
    · rw [he] at hs
      have hh : ∀ x ∈ "https".data, 0x20 < x.toNat := by decide
      exact hh c hs
  · rcases hcm with rfl | rfl | rfl | hcm
    · decide
    · decide
    · decide
    · rcases hcm with ((((hu | hh) | hp) | hpa) | hq) | hf
      · unfold serializeUserinfo at hu
        split at hu
        · simp at hu
        · simp only [List.mem_append, List.mem_cons] at hu
          rcases hu with (hu | hu) | hu
          · exact not_userinfo_gt20 c (hcan.user_ok c hu)
          · split at hu
            · simp at hu
            · simp only [List.mem_cons] at hu
              rcases hu with rfl | hu
              · decide
              · exact not_userinfo_gt20 c (hcan.pass_ok c hu)
          · rcases hu with rfl | hu
            · decide
            · simp at hu
      · exact hostCanonical_chars r.host hcan.host_ok c hh
      · unfold serializePort at hp
        split at hp
        · simp at hp
        case h_2 p hpeq =>
          simp only [List.mem_cons] at hp
          rcases hp with rfl | hp
          · decide
          · have hpok := hcan.port_ok p (Option.mem_def.mpr hpeq)
            have := natToDec_all_dig p (by omega)
            rw [List.all_eq_true] at this
            exact isDig_gt20 c (this c hp)
      · unfold serializePath at hpa
        rcases List.mem_flatMap.mp hpa with ⟨seg, hseg, hcs⟩
        simp only [List.mem_cons] at hcs
        rcases hcs with rfl | hcs
        · decide
        · exact not_path_gt20 c ((hcan.path_ok seg hseg).1 c hcs).1
      · unfold serializeQuery at hq
        split at hq
        · simp at hq
        case h_2 q hqeq =>
          simp only [List.mem_cons] at hq
          rcases hq with rfl | hq
          · decide
          · exact not_query_gt20 c (hcan.query_ok q (Option.mem_def.mpr hqeq) c hq)
      · unfold serializeFrag at hf
        split at hf
        · simp at hf
        case h_2 f hfeq =>
          simp only [List.mem_cons] at hf
          rcases hf with rfl | hf
          · decide
          · exact not_frag_gt20 c (hcan.frag_ok f (Option.mem_def.mpr hfeq) c hf)

theorem dropWhile_id_of (p : Char → Bool) (l : List Char) (h : ∀ c ∈ l, p c = false) :
    l.dropWhile p = l := by
  cases l with
  | nil => rfl
  | cons a rest => simp [List.dropWhile_cons, h a (by simp)]

theorem preprocess_id (l : List Char) (h : ∀ c ∈ l, 0x20 < c.toNat) : preprocess l = l := by
  have hc0 : ∀ c ∈ l, isC0Space c = false := by
    intro c hc
    have := h c hc
    simp only [isC0Space, decide_eq_false_iff_not]
    omega
  unfold preprocess trimEnds
  rw [dropWhile_id_of _ _ hc0]
  rw [dropWhile_id_of _ _ (fun c hc => hc0 c (List.mem_reverse.mp hc))]
  rw [List.reverse_reverse]
  unfold removeTabNL
  rw [List.filter_eq_self.mpr]
  intro c hc
  have := h c hc
  simp only [Bool.not_eq_true', Bool.or_eq_false_iff, decide_eq_false_iff_not]
  omega

/-! ### Host round-trip -/

theorem map_id_of (f : Char → Char) (l : List Char) (h : ∀ c ∈ l, f c = c) :
    l.map f = l := by
  induction l with
  | nil => rfl
  | cons a rest ih =>
    simp only [List.map_cons, h a (by simp), List.cons.injEq, true_and]
    exact ih (fun c hc => h c (by simp [hc]))

theorem any_false_of (p : Char → Bool) (l : List Char) (h : ∀ c ∈ l, p c = false) :
    l.any p = false := by
  induction l with
  | nil => rfl
  | cons a rest ih =>
    simp only [List.any_cons, h a (by simp), Bool.false_or]
    exact ih (fun c hc => h c (by simp [hc]))

theorem isDig_bounds (c : Char) (h : isDig c = true) : 48 ≤ c.toNat ∧ c.toNat ≤ 57 := by
  simp only [isDig, Bool.and_eq_true, decide_eq_true_eq] at h
  exact h

theorem isDig_not_dot (c : Char) (h : isDig c = true) : isDotSep c = false := by
  have hb := isDig_bounds c h
  simp only [isDotSep, beq_eq_false_iff_ne, ne_eq]
  intro e
  subst e
  simp at hb

set_option maxRecDepth 4096 in
theorem ipv4NumberParse_natToDec : ∀ o, o < 256 → ipv4NumberParse (natToDec o) = some o := by
  decide

set_option maxRecDepth 4096 in
theorem octet_checks : ∀ o, o < 256 →
    (isRegexOctet (natToDec o) = true ∧
      (!(natToDec o).isEmpty && (natToDec o).all isDig && decide (decToNat (natToDec o) ≤ 255)) =
        true) := by
  decide

theorem splitOnSep_ipv4String (o3 o2 o1 o0 : Nat) (h3 : o3 ≤ 255) (h2 : o2 ≤ 255)
    (h1 : o1 ≤ 255) (h0 : o0 ≤ 255) :
    splitOnSep isDotSep (ipv4String o3 o2 o1 o0) =
      [natToDec o3, natToDec o2, natToDec o1, natToDec o0] := by
  have hfree : ∀ o, o ≤ 255 → ∀ c ∈ natToDec o, isDotSep c = false := by
    intro o ho c hc
    have := natToDec_all_dig o (by omega)
    rw [List.all_eq_true] at this
    exact isDig_not_dot c (this c hc)
  unfold ipv4String
  rw [splitOnSep_append isDotSep _ _ _ (hfree o3 h3) (by decide)]
  rw [splitOnSep_append isDotSep _ _ _ (hfree o2 h2) (by decide)]
  rw [splitOnSep_append isDotSep _ _ _ (hfree o1 h1) (by decide)]
  rw [splitOnSep_no_sep isDotSep _ (hfree o0 h0)]

theorem hostParts_ipv4String (o3 o2 o1 o0 : Nat) (h3 : o3 ≤ 255) (h2 : o2 ≤ 255)
    (h1 : o1 ≤ 255) (h0 : o0 ≤ 255) :
    hostParts (ipv4String o3 o2 o1 o0) =
      [natToDec o3, natToDec o2, natToDec o1, natToDec o0] := by
  unfold hostParts dropTrailingEmpty
  rw [splitOnSep_ipv4String o3 o2 o1 o0 h3 h2 h1 h0]
  rw [if_neg]
  intro hcon
  have hlast : ([natToDec o3, natToDec o2, natToDec o1,
      natToDec o0] : List (List Char)).getLast? = some (natToDec o0) := rfl
  rw [hlast] at hcon
  have h5 := hcon.1
  injection h5 with h5
  exact natToDec_ne_nil o0 h5

theorem endsInNumber_ipv4String (o3 o2 o1 o0 : Nat) (h3 : o3 ≤ 255) (h2 : o2 ≤ 255)
    (h1 : o1 ≤ 255) (h0 : o0 ≤ 255) :
    endsInNumber (ipv4String o3 o2 o1 o0) = true := by
  unfold endsInNumber
  rw [hostParts_ipv4String o3 o2 o1 o0 h3 h2 h1 h0]
  have hlast : ([natToDec o3, natToDec o2, natToDec o1,
      natToDec o0] : List (List Char)).getLast? = some (natToDec o0) := rfl
  rw [hlast]
  have hemp : (natToDec o0).isEmpty = false := by
    cases he : natToDec o0 with
    | nil => exact absurd he (natToDec_ne_nil o0)
    | cons a rest => rfl
  dsimp only
  rw [hemp, natToDec_all_dig o0 (by omega)]
  simp

theorem parseIPv4_ipv4String (o3 o2 o1 o0 : Nat) (h3 : o3 ≤ 255) (h2 : o2 ≤ 255)
    (h1 : o1 ≤ 255) (h0 : o0 ≤ 255) :
    parseIPv4 (ipv4String o3 o2 o1 o0) =
      some (o3 * 16777216 + o2 * 65536 + o1 * 256 + o0) := by
  unfold parseIPv4
  rw [hostParts_ipv4String o3 o2 o1 o0 h3 h2 h1 h0]
  rw [if_neg (by simp)]
  have hm : ([natToDec o3, natToDec o2, natToDec o1,
      natToDec o0] : List (List Char)).mapM ipv4NumberParse = some [o3, o2, o1, o0] := by
    simp only [List.mapM_cons, List.mapM_nil,
      ipv4NumberParse_natToDec o3 (by omega), ipv4NumberParse_natToDec o2 (by omega),
      ipv4NumberParse_natToDec o1 (by omega), ipv4NumberParse_natToDec o0 (by omega)]
    rfl
  have hall : (([o3, o2, o1, o0] : List Nat).dropLast.all fun n => decide (n ≤ 255)) =
      true := by
    simp only [List.dropLast, List.all_cons, List.all_nil, Bool.and_true,
      Bool.and_eq_true, decide_eq_true_eq]
    omega
  have hlastok : ipv4LastOk [o3, o2, o1, o0] = true := by
    unfold ipv4LastOk
    have h6 : ([o3, o2, o1, o0] : List Nat).getLast? = some o0 := rfl
    rw [h6]
    simp only [List.length_cons, List.length_nil, decide_eq_true_eq]
    norm_num
    omega
  rw [hm]
  dsimp only
  rw [hall, hlastok]
  simp [ipv4Combine]

theorem serializeIPv4_combine (o3 o2 o1 o0 : Nat) (h3 : o3 ≤ 255) (h2 : o2 ≤ 255)
    (h1 : o1 ≤ 255) (h0 : o0 ≤ 255) :
    serializeIPv4 (o3 * 16777216 + o2 * 65536 + o1 * 256 + o0) =
      ipv4String o3 o2 o1 o0 := by
  unfold serializeIPv4
  have e3 : (o3 * 16777216 + o2 * 65536 + o1 * 256 + o0) / 16777216 % 256 = o3 := by omega
  have e2 : (o3 * 16777216 + o2 * 65536 + o1 * 256 + o0) / 65536 % 256 = o2 := by omega
  have e1 : (o3 * 16777216 + o2 * 65536 + o1 * 256 + o0) / 256 % 256 = o1 := by omega
  have e0 : (o3 * 16777216 + o2 * 65536 + o1 * 256 + o0) % 256 = o0 := by omega
  rw [e3, e2, e1, e0]

theorem hostCanonical_lower (h : List Char) (hc : HostCanonical h) :
    h.map asciiLower = h := by
  apply map_id_of
  intro c hm
  rcases hc with ⟨o3, o2, o1, o0, h3, h2, h1, h0, rfl⟩ | ⟨_, hdom, _⟩
  · rcases ipv4String_chars o3 o2 o1 o0 h3 h2 h1 h0 c hm with hd | hd
    · have := isDig_bounds c hd
      exact asciiLower_id c (by omega)
    · subst hd; decide
  · exact (hdom c hm).2.2

theorem parseHost_id (h : List Char) (hc : HostCanonical h) : parseHost h = some h := by
  have hne : h ≠ [] := by
    rcases hc with ⟨o3, o2, o1, o0, _, _, _, _, rfl⟩ | ⟨hne, _, _⟩
    · unfold ipv4String
      cases he : natToDec o3 with
      | nil => exact absurd he (natToDec_ne_nil o3)
      | cons a rest => simp
    · exact hne
  have hnopct : ∀ c ∈ h, c ≠ '%' := by
    intro c hm e
    subst e
    rcases hc with ⟨o3, o2, o1, o0, h3, h2, h1, h0, rfl⟩ | ⟨_, hdom, _⟩
    · rcases ipv4String_chars o3 o2 o1 o0 h3 h2 h1 h0 _ hm with hd | hd
      · exact absurd hd (by decide)
      · exact absurd hd (by decide)
    · exact absurd (hdom _ hm).2.1 (by decide)
  have hascii : ∀ c ∈ h, c.toNat < 0x80 := by
    intro c hm
    rcases hc with ⟨o3, o2, o1, o0, h3, h2, h1, h0, rfl⟩ | ⟨_, hdom, _⟩
    · rcases ipv4String_chars o3 o2 o1 o0 h3 h2 h1 h0 _ hm with hd | hd
      · have := isDig_bounds c hd; omega
      · subst hd; decide
    · exact (hdom c hm).1
  have hforb : ∀ c ∈ h, isForbiddenDomain c = false := by
    intro c hm
    rcases hc with ⟨o3, o2, o1, o0, h3, h2, h1, h0, rfl⟩ | ⟨_, hdom, _⟩
    · rcases ipv4String_chars o3 o2 o1 o0 h3 h2 h1 h0 _ hm with hd | hd
      · have := isDig_bounds c hd
        simp only [isForbiddenDomain, Bool.or_eq_false_iff, decide_eq_false_iff_not]
        omega
      · subst hd; decide
    · exact (hdom c hm).2.1
  have hanyascii : ((percentDecode h).any fun c => decide (0x80 ≤ c.toNat)) = false := by
    rw [percentDecode_id h hnopct]
    apply any_false_of
    intro c hm
    simp only [decide_eq_false_iff_not]
    push_neg
    exact hascii c hm
  unfold parseHost
  rw [if_neg (by simp [List.isEmpty_iff, hne])]
  dsimp only
  rw [hanyascii]
  rw [if_neg (by simp)]
  rw [percentDecode_id h hnopct]
  rw [hostCanonical_lower h hc]
  rw [any_false_of _ _ hforb]
  rw [if_neg (by simp)]
  rcases hc with ⟨o3, o2, o1, o0, h3, h2, h1, h0, rfl⟩ | ⟨_, _, hnum⟩
  · rw [endsInNumber_ipv4String o3 o2 o1 o0 h3 h2 h1 h0]
    rw [if_pos rfl]
    rw [parseIPv4_ipv4String o3 o2 o1 o0 h3 h2 h1 h0]
    dsimp only
    rw [serializeIPv4_combine o3 o2 o1 o0 h3 h2 h1 h0]
  · rw [hnum]
    rw [if_neg (by simp)]

/-! ### Authority round-trip -/

theorem not_forbidden_facts (c : Char) (hf : isForbiddenDomain c = false) :
    c ≠ '@' ∧ c ≠ ':' ∧ c ≠ '/' ∧ c ≠ '\\' ∧ c ≠ '?' ∧ c ≠ '#' := by
  refine ⟨?_, ?_, ?_, ?_, ?_, ?_⟩
  all_goals intro e
  all_goals subst e
  all_goals exact absurd hf (by decide)

theorem not_userinfo_facts (c : Char) (h : inUserinfoSet c = false) :
    c ≠ '@' ∧ c ≠ ':' ∧ c ≠ '/' ∧ c ≠ '\\' ∧ c ≠ '?' ∧ c ≠ '#' := by
  refine ⟨?_, ?_, ?_, ?_, ?_, ?_⟩
  all_goals intro e
  all_goals subst e
  all_goals exact absurd h (by decide)

theorem isDig_ne_facts (c : Char) (h : isDig c = true) :
    c ≠ '@' ∧ c ≠ ':' ∧ c ≠ '/' ∧ c ≠ '\\' ∧ c ≠ '?' ∧ c ≠ '#' := by
  refine ⟨?_, ?_, ?_, ?_, ?_, ?_⟩
  all_goals intro e
  all_goals subst e
  all_goals exact absurd h (by decide)

theorem hostCanonical_not_forbidden (h : List Char) (hc : HostCanonical h) :
    ∀ c ∈ h, c ≠ '@' ∧ c ≠ ':' ∧ c ≠ '/' ∧ c ≠ '\\' ∧ c ≠ '?' ∧ c ≠ '#' := by
  intro c hm
  rcases hc with ⟨o3, o2, o1, o0, h3, h2, h1, h0, rfl⟩ | ⟨_, hdom, _⟩
  · rcases ipv4String_chars o3 o2 o1 o0 h3 h2 h1 h0 c hm with hd | hd
    · exact isDig_ne_facts c hd
    · subst hd
      refine ⟨by decide, by decide, by decide, by decide, by decide, by decide⟩
  · exact not_forbidden_facts c (hdom c hm).2.1

theorem hostCanonical_ne_nil (h : List Char) (hc : HostCanonical h) : h ≠ [] := by
  rcases hc with ⟨o3, o2, o1, o0, _, _, _, _, rfl⟩ | ⟨hne, _, _⟩
  · unfold ipv4String
    cases he : natToDec o3 with
    | nil => exact absurd he (natToDec_ne_nil o3)
    | cons a rest => simp
  · exact hne

theorem serializePort_chars (port : Option Nat) (hle : ∀ p ∈ port, p ≤ 65535) :
    ∀ c ∈ serializePort port, c = ':' ∨ isDig c = true := by
  intro c hm
  unfold serializePort at hm
  cases port with
  | none => simp at hm
  | some p =>
    simp only [List.mem_cons] at hm
    rcases hm with rfl | hm
    · exact Or.inl rfl
    · have hp := hle p (by simp)
      have := natToDec_all_dig p (by omega)
      rw [List.all_eq_true] at this
      exact Or.inr (this c hm)

theorem port_no_at_colonfree (port : Option Nat) (hle : ∀ p ∈ port, p ≤ 65535) :
    ∀ c ∈ serializePort port, c ≠ '@' := by
  intro c hm
  rcases serializePort_chars port hle c hm with rfl | hd
  · decide
  · exact (isDig_ne_facts c hd).1

theorem parseUserinfo_serialize (r : UrlRec) (hcan : Canonical r) :
    parseUserinfo (serializeAuth r) =
      (r.username, r.password, r.host ++ serializePort r.port) := by
  have hple : ∀ p ∈ r.port, p ≤ 65535 := fun p hp => (hcan.port_ok p hp).1
  have hnoat : '@' ∉ r.host ++ serializePort r.port := by
    intro hm
    rcases List.mem_append.mp hm with h | h
    · exact (hostCanonical_not_forbidden r.host hcan.host_ok '@' h).1 rfl
    · exact port_no_at_colonfree r.port hple '@' h rfl
  have huenc : encodeList inUserinfoSet r.username = r.username :=
    encodeList_id _ _ hcan.user_ok
  have hpenc : encodeList inUserinfoSet r.password = r.password :=
    encodeList_id _ _ hcan.pass_ok
  unfold serializeAuth serializeUserinfo
  by_cases hu : r.username.isEmpty
  · by_cases hp : r.password.isEmpty
    · rw [if_pos (by simp [hu, hp])]
      have hu2 : r.username = [] := by simpa [List.isEmpty_iff] using hu
      have hp2 : r.password = [] := by simpa [List.isEmpty_iff] using hp
      unfold parseUserinfo
      rw [List.nil_append, splitLast_not_mem '@' _ hnoat, hu2, hp2]
    · rw [if_neg (by simp [hp])]
      have hu2 : r.username = [] := by simpa [List.isEmpty_iff] using hu
      have hp2 : r.password ≠ [] := by simpa [List.isEmpty_iff] using hp
      rw [if_neg hp]
      unfold parseUserinfo
      rw [hu2]
      have hshape : ([] : List Char) ++ ':' :: r.password ++ ['@'] ++ r.host ++
          serializePort r.port =
          (':' :: r.password) ++ '@' :: (r.host ++ serializePort r.port) := by
        simp
      rw [hshape, splitLast_append '@' _ _ hnoat]
      dsimp only
      have hsf : splitFirst ':' (':' :: r.password) = ([], some r.password) := by
        unfold splitFirst
        rw [if_pos rfl]
      rw [hsf]
      dsimp only
      rw [hpenc]
      rfl
  · have hu2 : r.username ≠ [] := by simpa [List.isEmpty_iff] using hu
    have hucolon : ':' ∉ r.username := by
      intro hm
      exact (not_userinfo_facts ':' (hcan.user_ok ':' hm)).2.1 rfl
    by_cases hp : r.password.isEmpty
    · rw [if_neg (by simp [hu])]
      have hp2 : r.password = [] := by simpa [List.isEmpty_iff] using hp
      rw [if_pos hp]
      unfold parseUserinfo
      have hshape : r.username ++ [] ++ ['@'] ++ r.host ++ serializePort r.port =
          r.username ++ '@' :: (r.host ++ serializePort r.port) := by
        simp
      rw [hshape, splitLast_append '@' _ _ hnoat]
      dsimp only
      rw [splitFirst_not_mem ':' _ hucolon]
      dsimp only
      rw [huenc, hp2]
    · rw [if_neg (by simp [hu])]
      have hp2 : r.password ≠ [] := by simpa [List.isEmpty_iff] using hp
      rw [if_neg hp]
      unfold parseUserinfo
      have hshape : r.username ++ ':' :: r.password ++ ['@'] ++ r.host ++
          serializePort r.port =
          (r.username ++ ':' :: r.password) ++ '@' :: (r.host ++ serializePort r.port) := by
        simp
      rw [hshape, splitLast_append '@' _ _ hnoat]
      dsimp only
      rw [splitFirst_append ':' _ _ hucolon]
      dsimp only
      rw [huenc, hpenc]

theorem hostCanonical_no_colon (h : List Char) (hc : HostCanonical h) : ':' ∉ h := by
  intro hm
  exact (hostCanonical_not_forbidden h hc ':' hm).2.1 rfl

theorem parseAuthority_serialize (r : UrlRec) (hcan : Canonical r) :
    parseAuthority r.scheme (serializeAuth r) =
      some (r.username, r.password, r.host, r.port) := by
  unfold parseAuthority
  rw [parseUserinfo_serialize r hcan]
  dsimp only
  have hhne : r.host ≠ [] := hostCanonical_ne_nil r.host hcan.host_ok
  have hcolon : ':' ∉ r.host := hostCanonical_no_colon r.host hcan.host_ok
  have hpe : (r.host ++ serializePort r.port).isEmpty = false := by
    cases hh : r.host with
    | nil => exact absurd hh hhne
    | cons a t => simp
  rw [hpe, if_neg Bool.false_ne_true]
  cases hport : r.port with
  | none =>
    have hser : serializePort none = ([] : List Char) := rfl
    rw [hser, List.append_nil, splitFirst_not_mem ':' _ hcolon]
    dsimp only
    rw [parseHost_id r.host hcan.host_ok]
  | some p =>
    have hpok := hcan.port_ok p (by rw [hport]; rfl)
    have hser : serializePort (some p) = ':' :: natToDec p := rfl
    rw [hser]
    have hshape : r.host ++ ':' :: natToDec p = r.host ++ ':' :: natToDec p := rfl
    rw [splitFirst_append ':' _ _ hcolon]
    dsimp only
    rw [parseHost_id r.host hcan.host_ok]
    unfold parsePort
    have hne : (natToDec p).isEmpty = false := by
      cases he : natToDec p with
      | nil => exact absurd he (natToDec_ne_nil p)
      | cons a t => rfl
    have hdig : (natToDec p).all isDig = true := natToDec_all_dig p (by omega)
    have hval : decToNat (natToDec p) = p := decToNat_natToDec p (by omega)
    rw [hne, hdig]
    dsimp only [Bool.false_eq_true, if_false, if_true]
    rw [hval, if_pos hpok.1, if_neg hpok.2]
    simp

/-! ### Path, query and fragment round-trip -/

theorem segOk_not_slash (seg : List Char) (hok : SegOk seg) :
    ∀ c ∈ seg, isSlash c = false := by
  intro c hc
  have h := hok.1 c hc
  simp [isSlash, h.2.1, h.2.2]

theorem splitOnSep_serializePath (path : List (List Char))
    (h : ∀ seg ∈ path, ∀ c ∈ seg, isSlash c = false) :
    splitOnSep isSlash (serializePath path) = [] :: path := by
  induction path with
  | nil => rfl
  | cons s rest ih =>
    have hs : ∀ c ∈ s, isSlash c = false := h s (by simp)
    have ihh := ih (fun seg hseg => h seg (by simp [hseg]))
    have hshape : serializePath (s :: rest) = '/' :: (s ++ serializePath rest) := by
      simp [serializePath]
    rw [hshape]
    have hsl : isSlash '/' = true := by decide
    show splitOnSep isSlash ('/' :: (s ++ serializePath rest)) = [] :: s :: rest
    unfold splitOnSep
    rw [hsl, if_pos rfl]
    rw [splitOnSep_prepend isSlash s _ hs, ihh]
    simp

theorem resolveSegs_id :
    ∀ (segs acc : List (List Char)), (∀ seg ∈ segs, SegOk seg) →
      resolveSegs acc segs = acc ++ segs := by
  intro segs
  induction segs with
  | nil => intro acc _; simp [resolveSegs]
  | cons b rest ih =>
    intro acc hok
    have hb := hok b (by simp)
    have henc : encodeList inPathSet b = b :=
      encodeList_id _ _ (fun c hc => (hb.1 c hc).1)
    cases rest with
    | nil =>
      show resolveSegs acc [b] = acc ++ [b]
      simp [resolveSegs, henc, hb.2.1, hb.2.2]
    | cons b2 r2 =>
      have hstep : resolveSegs acc (b :: b2 :: r2) = resolveSegs (acc ++ [b]) (b2 :: r2) := by
        simp only [resolveSegs, henc, hb.2.1, hb.2.2]
        simp
      rw [hstep, ih (acc ++ [b]) (fun s hs => hok s (by simp [hs]))]
      simp

theorem parsePath_serialize (path : List (List Char)) (hne : path ≠ [])
    (hok : ∀ seg ∈ path, SegOk seg) :
    parsePath (serializePath path) = path := by
  cases path with
  | nil => exact absurd rfl hne
  | cons s rest =>
    have hser : serializePath (s :: rest) = '/' :: (s ++ serializePath rest) := by
      simp [serializePath]
    have hemp : (serializePath (s :: rest)).isEmpty = false := by rw [hser]; rfl
    unfold parsePath
    rw [hemp, if_neg Bool.false_ne_true]
    rw [splitOnSep_serializePath (s :: rest)
      (fun seg hseg => segOk_not_slash seg (hok seg hseg))]
    simp only [List.drop_succ_cons, List.drop_zero]
    rw [resolveSegs_id (s :: rest) [] hok]
    rfl

theorem not_query_ne_hash (c : Char) (h : inQuerySet c = false) : (!(c == '#')) = true := by
  by_cases he : c = '#'
  · subst he; exact absurd h (by decide)
  · simp [he]

theorem parseQF_serialize (query fragment : Option (List Char))
    (hq : ∀ q ∈ query, ∀ c ∈ q, inQuerySet c = false)
    (hf : ∀ f ∈ fragment, ∀ c ∈ f, inFragmentSet c = false) :
    parseQF (serializeQuery query ++ serializeFrag fragment) = (query, fragment) := by
  cases query with
  | none =>
    cases fragment with
    | none => rfl
    | some f =>
      have hfe : encodeList inFragmentSet f = f :=
        encodeList_id _ _ (hf f (by rfl))
      show parseQF ('#' :: f) = (none, some f)
      have h1 : parseQF ('#' :: f) = (none, some (encodeList inFragmentSet f)) := rfl
      rw [h1, hfe]
  | some q =>
    have hq2 : ∀ c ∈ q, (fun c => !(c == '#')) c = true :=
      fun c hc => not_query_ne_hash c (hq q (by rfl) c hc)
    have hqe : encodeList inQuerySet q = q := encodeList_id _ _ (hq q (by rfl))
    cases fragment with
    | none =>
      show parseQF ('?' :: (q ++ [])) = (some q, none)
      rw [List.append_nil]
      simp only [parseQF]
      rw [spanList_all _ _ hq2]
      dsimp only
      rw [hqe]
    | some f =>
      have hfe : encodeList inFragmentSet f = f :=
        encodeList_id _ _ (hf f (by rfl))
      show parseQF ('?' :: (q ++ '#' :: f)) = (some q, some f)
      simp only [parseQF]
      rw [spanList_append _ _ _ _ hq2 (by decide)]
      dsimp only
      rw [hqe]
      show ((some q : Option (List Char)), some (encodeList inFragmentSet f)) = (some q, some f)
      rw [hfe]

/-! ### Full parse-of-serialization round trip -/

theorem not_path_qh (c : Char) (h : inPathSet c = false) : c ≠ '?' ∧ c ≠ '#' := by
  constructor
  all_goals intro e
  all_goals subst e
  all_goals exact absurd h (by decide)

theorem serializeAuth_delims (r : UrlRec) (hcan : Canonical r) :
    ∀ c ∈ serializeAuth r, c ≠ '/' ∧ c ≠ '\\' ∧ c ≠ '?' ∧ c ≠ '#' := by
  intro c hm
  unfold serializeAuth serializeUserinfo at hm
  simp only [List.mem_append] at hm
  rcases hm with (hui | hh) | hp
  · by_cases he : r.username.isEmpty && r.password.isEmpty
    · rw [if_pos he] at hui
      simp at hui
    · rw [if_neg he] at hui
      simp only [List.mem_append, List.mem_cons] at hui
      rcases hui with (hu | hpw) | hat
      · have hf := not_userinfo_facts c (hcan.user_ok c hu)
        exact ⟨hf.2.2.1, hf.2.2.2.1, hf.2.2.2.2.1, hf.2.2.2.2.2⟩
      · by_cases hpe : r.password.isEmpty
        · rw [if_pos hpe] at hpw
          simp at hpw
        · rw [if_neg hpe] at hpw
          simp only [List.mem_cons] at hpw
          rcases hpw with rfl | hpw2
          · refine ⟨by decide, by decide, by decide, by decide⟩
          · have hf := not_userinfo_facts c (hcan.pass_ok c hpw2)
            exact ⟨hf.2.2.1, hf.2.2.2.1, hf.2.2.2.2.1, hf.2.2.2.2.2⟩
      · rcases hat with rfl | hnil
        · refine ⟨by decide, by decide, by decide, by decide⟩
        · simp at hnil
  · have hf := hostCanonical_not_forbidden r.host hcan.host_ok c hh
    exact ⟨hf.2.2.1, hf.2.2.2.1, hf.2.2.2.2.1, hf.2.2.2.2.2⟩
  · rcases serializePort_chars r.port (fun p hp => (hcan.port_ok p hp).1) c hp with rfl | hd
    · refine ⟨by decide, by decide, by decide, by decide⟩
    · have hf := isDig_ne_facts c hd
      exact ⟨hf.2.2.1, hf.2.2.2.1, hf.2.2.2.2.1, hf.2.2.2.2.2⟩

theorem serializeAuth_ne_nil (r : UrlRec) (hcan : Canonical r) : serializeAuth r ≠ [] := by
  unfold serializeAuth
  intro h
  rcases List.append_eq_nil.mp h with ⟨h1, _⟩
  rcases List.append_eq_nil.mp h1 with ⟨_, hh⟩
  exact hostCanonical_ne_nil r.host hcan.host_ok hh

theorem stripSlashes_cons_ok (c : Char) (l : List Char) (h1 : c ≠ '/') (h2 : c ≠ '\\') :
    stripSlashes (c :: l) = c :: l := by
  unfold stripSlashes
  rw [if_neg (by simp [h1, h2])]

theorem parseHttp_serialize (r : UrlRec) (hcan : Canonical r) :
    parseHttp (serializeRec r) = some r := by
  obtain ⟨s0, rest0, hpath⟩ : ∃ s0 rest0, r.path = s0 :: rest0 := by
    cases hp : r.path with
    | nil => exact absurd hp hcan.path_ne
    | cons a b => exact ⟨a, b, rfl⟩
  have hser0 : serializePath (s0 :: rest0) = '/' :: (s0 ++ serializePath rest0) := by
    simp [serializePath]
  have hdelims := serializeAuth_delims r hcan
  have hauthpred1 : ∀ c ∈ serializeAuth r,
      (fun c => !(c == '/' || c == '\\' || c == '?' || c == '#')) c = true := by
    intro c hc
    have h := hdelims c hc
    simp [h.1, h.2.1, h.2.2.1, h.2.2.2]
  have hpre : preprocess (serializeRec r) = serializeRec r :=
    preprocess_id _ (serializeRec_chars r hcan)
  have hss : schemeSplit (preprocess (serializeRec r)) =
      some (r.scheme, '/' :: '/' :: serializeTail r) := by
    rw [hpre]
    show schemeSplit (r.scheme ++ ':' :: '/' :: '/' :: serializeTail r) =
      some (r.scheme, '/' :: '/' :: serializeTail r)
    rcases hcan.scheme_ok with he | he
    · rw [he]
      rfl
    · rw [he]
      rfl
  have hstrip : stripSlashes ('/' :: '/' :: serializeTail r) = serializeTail r := by
    have h2 : stripSlashes ('/' :: '/' :: serializeTail r) =
        stripSlashes (serializeTail r) := rfl
    rw [h2]
    cases ha : serializeAuth r with
    | nil => exact absurd ha (serializeAuth_ne_nil r hcan)
    | cons c0 t0 =>
      have hc0 := hdelims c0 (by rw [ha]; simp)
      have hTT : serializeTail r = c0 :: (t0 ++ serializePath r.path ++
          serializeQuery r.query ++ serializeFrag r.fragment) := by
        unfold serializeTail
        rw [ha]
        simp
      rw [hTT, stripSlashes_cons_ok c0 _ hc0.1 hc0.2.1]
  have hspan1 : spanList (fun c => !(c == '/' || c == '\\' || c == '?' || c == '#'))
      (serializeTail r) =
      (serializeAuth r,
        serializePath r.path ++ serializeQuery r.query ++ serializeFrag r.fragment) := by
    have hshape : serializeTail r = serializeAuth r ++
        ('/' :: ((s0 ++ serializePath rest0) ++
          (serializeQuery r.query ++ serializeFrag r.fragment))) := by
      unfold serializeTail
      rw [hpath, hser0]
      simp
    rw [hshape, spanList_append _ _ _ _ hauthpred1 (by decide)]
    rw [hpath, hser0]
    simp
  have hsp2 : ∀ c ∈ serializePath r.path,
      (fun c => !(c == '?' || c == '#')) c = true := by
    intro c hc
    unfold serializePath at hc
    rw [List.mem_flatMap] at hc
    obtain ⟨seg, hseg, hcm⟩ := hc
    rcases List.mem_cons.mp hcm with rfl | hcm2
    · decide
    · have hq := not_path_qh c ((hcan.path_ok seg hseg).1 c hcm2).1
      simp [hq.1, hq.2]
  have hspan2 : spanList (fun c => !(c == '?' || c == '#'))
      (serializePath r.path ++ serializeQuery r.query ++ serializeFrag r.fragment) =
      (serializePath r.path, serializeQuery r.query ++ serializeFrag r.fragment) := by
    cases hq : r.query with
    | some q =>
      have hshape : serializePath r.path ++ serializeQuery (some q) ++
          serializeFrag r.fragment =
          serializePath r.path ++ '?' :: (q ++ serializeFrag r.fragment) := by
        simp [serializeQuery]
      rw [hshape, spanList_append _ _ _ _ hsp2 (by decide)]
      simp [serializeQuery]
    | none =>
      cases hf : r.fragment with
      | some f =>
        have hshape : serializePath r.path ++ serializeQuery none ++
            serializeFrag (some f) = serializePath r.path ++ '#' :: f := by
          simp [serializeQuery, serializeFrag]
        rw [hshape, spanList_append _ _ _ _ hsp2 (by decide)]
        simp [serializeQuery, serializeFrag]
      | none =>
        have hshape : serializePath r.path ++ serializeQuery none ++
            serializeFrag none = serializePath r.path := by
          simp [serializeQuery, serializeFrag]
        rw [hshape, spanList_all _ _ hsp2]
        simp [serializeQuery, serializeFrag]
  unfold parseHttp
  dsimp only
  rw [hss]
  dsimp only
  rw [hstrip, hspan1]
  dsimp only
  rw [parseAuthority_serialize r hcan]
  dsimp only
  rw [hspan2]
  dsimp only
  rw [parsePath_serialize r.path hcan.path_ne hcan.path_ok,
    parseQF_serialize r.query r.fragment hcan.query_ok hcan.frag_ok]

/-- C2: `normalize` is idempotent on its non-null outputs — renormalizing the
returned canonical serialization parses back to the same record and passes
the same host and protocol checks, returning the same string. -/
theorem normalizeUrl_idempotent (x out : String) (h : normalizeUrl x = some out) :
    normalizeUrl out = some out := by
  unfold normalizeUrl at h
  dsimp only at h
  split at h
  case h_1 => exact absurd h (by simp)
  case h_2 parsed hparse =>
    try dsimp only at h
    split at h
    case isTrue => exact absurd h (by simp)
    case isFalse hcond =>
      injection h with h
      subst h
      have hcan := parseHttp_canonical _ _ hparse
      have hsw : startsWithHttpScheme (String.mk (serializeRec parsed)) = true := by
        have hd : (String.mk (serializeRec parsed)).data =
            parsed.scheme ++ ':' :: '/' :: '/' :: serializeTail parsed := rfl
        unfold startsWithHttpScheme
        rw [hd]
        rcases hcan.scheme_ok with he | he
        · rw [he]
          rfl
        · rw [he]
          rfl
      unfold normalizeUrl
      dsimp only
      rw [if_pos hsw]
      have hp2 : parseHttp (String.mk (serializeRec parsed)).data = some parsed := by
        show parseHttp (serializeRec parsed) = some parsed
        exact parseHttp_serialize parsed hcan
      rw [hp2]
      dsimp only
      rw [if_neg hcond]

/-- Witness for C2 at a concrete input. -/
theorem normalizeUrl_idempotent_witness :
    normalizeUrl "example.com" = some "https://example.com/" ∧
      normalizeUrl "https://example.com/" = some "https://example.com/" :=
  ⟨by rfl, normalizeUrl_idempotent "example.com" "https://example.com/" (by rfl)⟩

/-! ### C1: the spec's description of `normalize`

`specNormalize` renders the spec's wording of the algorithm: prepend
`https://` when no http(s) scheme is present, parse as an absolute URL, and
accept exactly `localhost`, a dotted IPv4 address of four 0-255 octets, or a
lowercase domain pattern with no leading/trailing/consecutive dots and at
least one dot.  It differs from `normalizeUrl` in the host predicates: the
spec asks for four octets each 0-255 (`specIsIPv4`) where the code tests the
regex `25[0-5]|2[0-4]\d|1?\d?\d` per octet, and spells out the character
class as lowercase letters, digits, hyphens and dots (`specHostChar`). -/

/-- The spec's host character class: lowercase letters, digits, hyphens and
dots. -/
def specHostChar (c : Char) : Bool :=
  (97 ≤ c.toNat && c.toNat ≤ 122) || (48 ≤ c.toNat && c.toNat ≤ 57) || c = '.' || c = '-'

/-- The spec's IPv4 test: four dot-separated octets, each a digit string
whose value is between 0 and 255. -/
def specIsIPv4 (h : List Char) : Bool :=
  match splitOnSep isDotSep h with
  | [a, b, c, d] =>
    (!a.isEmpty && a.all isDig && decide (decToNat a ≤ 255)) &&
      (!b.isEmpty && b.all isDig && decide (decToNat b ≤ 255)) &&
      (!c.isEmpty && c.all isDig && decide (decToNat c ≤ 255)) &&
      (!d.isEmpty && d.all isDig && decide (decToNat d ≤ 255))
  | _ => false

/-- The spec's normalize algorithm, over the same URL-parser model. -/
def specNormalize (input : String) : Option String :=
  let withProtocol :=
    if startsWithHttpScheme input then input else "https://" ++ input
  match parseHttp withProtocol.data with
  | none => none
  | some parsed =>
    let hostname := parsed.host.map asciiLower
    let isIpv4 := specIsIPv4 hostname
    let isLocalhost := hostname = "localhost".data
    let hasValidDomainPattern :=
      hostname.all specHostChar &&
        !(hostname.headI = '.') && !(hostname.getLastD ' ' = '.') && !(hasDotDot hostname)
    let isHttpProtocol := parsed.scheme = "http".data || parsed.scheme = "https".data
    let isValidHost :=
      isLocalhost || isIpv4 || (hasValidDomainPattern && hostname.contains '.')
    if !isHttpProtocol || !isValidHost then none
    else some (String.mk (serializeRec parsed))

theorem specHostChar_eq (c : Char) : specHostChar c = isDomainPatternChar c := rfl

theorem isRegexOctet_digits (l : List Char) (h : isRegexOctet l = true) :
    l ≠ [] ∧ l.all isDig = true := by
  rcases l with _ | ⟨a, _ | ⟨b, _ | ⟨c, _ | ⟨d, t⟩⟩⟩⟩
  · exact absurd h (by decide)
  · refine ⟨by simp, ?_⟩
    have ha : isDig a = true := h
    simp [ha]
  · have hab : (isDig a && isDig b) = true := h
    rw [Bool.and_eq_true] at hab
    refine ⟨by simp, ?_⟩
    simp [hab.1, hab.2]
  · have h3 : ((a = '2' && b = '5' && (48 ≤ c.toNat && c.toNat ≤ 53)) ||
        (a = '2' && (48 ≤ b.toNat && b.toNat ≤ 52) && isDig c) ||
        (a = '1' && isDig b && isDig c)) = true := h
    refine ⟨by simp, ?_⟩
    simp only [Bool.or_eq_true, Bool.and_eq_true, decide_eq_true_eq] at h3
    have hdig : isDig a = true ∧ isDig b = true ∧ isDig c = true := by
      rcases h3 with (⟨⟨ha, hb⟩, hc⟩ | ⟨⟨ha, hb⟩, hc⟩) | ⟨⟨ha, hb⟩, hc⟩
      · subst ha; subst hb
        refine ⟨by decide, by decide, ?_⟩
        simp only [isDig, Bool.and_eq_true, decide_eq_true_eq]
        omega
      · subst ha
        refine ⟨by decide, ?_, hc⟩
        simp only [isDig, Bool.and_eq_true, decide_eq_true_eq]
        omega
      · subst ha
        exact ⟨by decide, hb, hc⟩
    simp [hdig.1, hdig.2.1, hdig.2.2]
  · have hf : isRegexOctet (a :: b :: c :: d :: t) = false := rfl
    rw [hf] at h
    exact absurd h (by decide)

theorem endsInNumber_of_last (host last : List Char)
    (hl : (splitOnSep isDotSep host).getLast? = some last)
    (hne : last ≠ []) (hdig : last.all isDig = true) :
    endsInNumber host = true := by
  unfold endsInNumber hostParts dropTrailingEmpty
  rw [if_neg ?hc]
  case hc =>
    intro hcon
    rw [hl] at hcon
    have h2 := hcon.1
    injection h2 with h2
    exact hne h2
  rw [hl]
  have hemp : last.isEmpty = false := by
    cases last with
    | nil => exact absurd rfl hne
    | cons x xs => rfl
  simp [hemp, hdig]

theorem length_four_ex (l : List (List Char)) (h : l.length = 4) :
    ∃ a b c d, l = [a, b, c, d] := by
  rcases l with _ | ⟨a, _ | ⟨b, _ | ⟨c, _ | ⟨d, _ | ⟨e, t⟩⟩⟩⟩⟩
  · simp at h
  · simp at h
  · simp at h
  · simp at h
  · exact ⟨a, b, c, d, rfl⟩
  · simp at h

theorem ipv4Regex_canonical (h : List Char) (hc : HostCanonical h) :
    ipv4Regex h = specIsIPv4 h := by
  rcases hc with ⟨o3, o2, o1, o0, h3, h2, h1, h0, rfl⟩ | ⟨hne, hdom, hnum⟩
  · have hsplit := splitOnSep_ipv4String o3 o2 o1 o0 h3 h2 h1 h0
    have c3 := octet_checks o3 (by omega)
    have c2 := octet_checks o2 (by omega)
    have c1 := octet_checks o1 (by omega)
    have c0 := octet_checks o0 (by omega)
    unfold ipv4Regex specIsIPv4
    rw [hsplit]
    dsimp only
    simp only [List.all_cons, List.all_nil, List.length_cons, List.length_nil]
    rw [c3.1, c2.1, c1.1, c0.1, c3.2, c2.2, c1.2, c0.2]
    decide
  · have hA : ipv4Regex h = false := by
      by_contra hcon
      rw [Bool.not_eq_false] at hcon
      unfold ipv4Regex at hcon
      dsimp only at hcon
      rw [Bool.and_eq_true] at hcon
      obtain ⟨hlen, hall⟩ := hcon
      rw [decide_eq_true_eq] at hlen
      obtain ⟨a, b, c, d, hp⟩ := length_four_ex _ hlen
      rw [hp] at hall
      have hd : isRegexOctet d = true := by
        rw [List.all_eq_true] at hall
        exact hall d (by simp)
      have hdd := isRegexOctet_digits d hd
      have : endsInNumber h = true :=
        endsInNumber_of_last h d (by rw [hp]; rfl) hdd.1 hdd.2
      rw [hnum] at this
      exact absurd this (by decide)
    have hB : specIsIPv4 h = false := by
      by_contra hcon
      rw [Bool.not_eq_false] at hcon
      unfold specIsIPv4 at hcon
      split at hcon
      case h_1 a b c d hp =>
        simp only [Bool.and_eq_true, Bool.not_eq_true'] at hcon
        have hdd := hcon.2
        have : endsInNumber h = true :=
          endsInNumber_of_last h d (by rw [hp]; rfl)
            (by
              intro hnil
              rw [hnil] at hdd
              exact absurd hdd.1.1 (by decide))
            hdd.1.2
        rw [hnum] at this
        exact absurd this (by decide)
      case h_2 => exact absurd hcon (by decide)
    rw [hA, hB]

/-- C1: `normalizeUrl` follows the spec's algorithm: it equals `specNormalize`
on every input (prepend `https://` without a scheme, parse, and accept
exactly localhost, a four-octet 0-255 dotted IPv4 address, or a dotted
lowercase domain pattern), prepending is the identity embedding into the
scheme-present case, and the spec's five examples evaluate as stated. -/
theorem normalizeUrl_follows_spec :
    (∀ x : String, normalizeUrl x = specNormalize x) ∧
    (∀ x : String, startsWithHttpScheme x = false →
      normalizeUrl x = normalizeUrl ("https://" ++ x)) ∧
    normalizeUrl "example.com" = some "https://example.com/" ∧
    normalizeUrl "ftp://example.com" = none ∧
    normalizeUrl "http://..bad.." = none ∧
    (normalizeUrl "192.168.1.1").isSome = true ∧
    (normalizeUrl "localhost:3000").isSome = true := by
  refine ⟨?_, ?_, by rfl, by rfl, by rfl, by rfl, by rfl⟩
  · intro x
    unfold normalizeUrl specNormalize
    dsimp only
    cases hp : parseHttp (if startsWithHttpScheme x then x else "https://" ++ x).data with
    | none => rfl
    | some parsed =>
      dsimp only
      have hcan := parseHttp_canonical _ _ hp
      have hlow : parsed.host.map asciiLower = parsed.host :=
        hostCanonical_lower _ hcan.host_ok
      rw [hlow, ipv4Regex_canonical parsed.host hcan.host_ok,
        show specHostChar = isDomainPatternChar from funext specHostChar_eq]
  · intro x hx
    unfold normalizeUrl
    dsimp only
    have hsw : startsWithHttpScheme ("https://" ++ x) = true := rfl
    rw [hx, hsw, if_neg Bool.false_ne_true, if_pos rfl]

/-- Witness for C1's prepend clause at a concrete input. -/
theorem normalizeUrl_follows_spec_witness :
    startsWithHttpScheme "example.com" = false ∧
      normalizeUrl "example.com" = normalizeUrl ("https://" ++ "example.com") :=
  ⟨by rfl, normalizeUrl_follows_spec.2.1 "example.com" (by rfl)⟩
